import Mathlib

/-!
# Verification of the CanDIG metadata service query engine

Shallow embedding, in Lean 4, of the query/filtering engine of the
CanDIG `metadata_service` repository, together with proofs about it.

Conventions used throughout this development:

* A Python `str` is modelled as its sequence of Unicode scalar values,
  i.e. a `List Char` (`PyStr` below).
* A Python function that can raise is modelled as a function into
  `Except E A`, where `E` enumerates the exception classes the code can
  raise on the modelled paths.
* Python `set`s of strings are modelled as `Finset PyStr`.
* Every definition is translated from the repository's source
  (`candig/metadata/backend.py` and `candig/metadata/datamodel/__init__.py`)
  except where a doc comment says `Modelled from the spec:` — those model
  helper modules (`paging`, `response_builder`) or Python standard-library
  routines (`base64`, `json`, UTF-8 codecs) that the source calls.
-/

/-- A Python string, modelled as its list of Unicode scalar values. -/
abbrev PyStr := List Char

/-! ## Logic evaluation: the `and` branch of `Backend.logicHandler`

From `backend.py`, `logicHandler`, the `logic_key == 'and'` branch:

```python
results_arr.sort(key=len)
for patient_id in results_arr[0]:
    if all(patient_id in results_arr[x] for x in range(1, len(results_arr))):
        patient_set.add(patient_id)
```

`results_arr` is the list of the children's evaluated key-sets.  Python's
`list.sort(key=len)` is a stable sort by set size ascending; we embed it
with `List.mergeSort` keyed on `Finset.card`.  The loop keeps exactly the
members of the smallest set that lie in every other set.
-/

/-- The `and` branch of `Backend.logicHandler`: sort the children's
evaluated key-sets by size ascending, then keep the members of the first
(smallest) set that belong to all remaining sets.  An empty list of
children would raise `IndexError` at `results_arr[0]` in the source; the
claims only concern non-empty child lists, and we return `∅` there to
keep the function total. -/
def logicAndHandler (results_arr : List (Finset PyStr)) : Finset PyStr :=
  match results_arr.mergeSort (fun a b => a.card ≤ b.card) with
  | [] => ∅
  | s0 :: rest => s0.filter (fun patient_id => ∀ s ∈ rest, patient_id ∈ s)

/-- The standard n-ary set intersection of a list of sets (the semantic
reference point the specification appeals to). -/
def setListInter : List (Finset PyStr) → Finset PyStr
  | [] => ∅
  | [s] => s
  | s :: rest => s ∩ setListInter (rest)

theorem mem_setListInter {p : PyStr} :
    ∀ {l : List (Finset PyStr)}, l ≠ [] →
      (p ∈ setListInter l ↔ ∀ s ∈ l, p ∈ s)
  | [], h => absurd rfl h
  | [s], _ => by simp [setListInter]
  | s :: t :: rest, _ => by
    rw [show setListInter (s :: t :: rest) = s ∩ setListInter (t :: rest) from rfl,
      Finset.mem_inter, @mem_setListInter p (t :: rest) (by simp)]
    simp_all

theorem mem_logicAndHandler {p : PyStr} {l : List (Finset PyStr)} (h : l ≠ []) :
    p ∈ logicAndHandler l ↔ ∀ s ∈ l, p ∈ s := by
  unfold logicAndHandler
  have hperm := List.mergeSort_perm l (fun a b => a.card ≤ b.card)
  cases hs : l.mergeSort (fun a b => a.card ≤ b.card) with
  | nil =>
    rw [hs] at hperm
    exact absurd hperm.symm.eq_nil h
  | cons s0 rest =>
    rw [hs] at hperm
    simp only [Finset.mem_filter]
    constructor
    · rintro ⟨hp0, hprest⟩ s hsl
      rcases List.mem_cons.mp (hperm.mem_iff.mpr hsl : s ∈ s0 :: rest) with h0 | hr
      · exact h0 ▸ hp0
      · exact hprest s hr
    · intro hall
      exact ⟨hall s0 (hperm.mem_iff.mp (by simp)),
             fun s hs => hall s (hperm.mem_iff.mp (by simp [hs]))⟩

/-- C1: for every non-empty list of child key-sets, the `and` branch of
`Backend.logicHandler` returns exactly the standard set intersection of
the children's key-sets, and the result is identical under any
permutation of the children (the implementation's sort of children by
result-set size ascending does not affect the outcome). -/
theorem logicAnd_eq_inter_and_perm_invariant
    (children children' : List (Finset PyStr)) (hne : children ≠ [])
    (hperm : children.Perm children') :
    logicAndHandler children = setListInter children ∧
    logicAndHandler children' = logicAndHandler children := by
  have hne' : children' ≠ [] := by
    intro h
    subst h
    exact hne hperm.eq_nil
  constructor
  · ext p
    rw [mem_logicAndHandler hne, mem_setListInter hne]
  · ext p
    rw [mem_logicAndHandler hne, mem_logicAndHandler hne']
    exact ⟨fun hall s hs => hall s (hperm.mem_iff.mp hs),
           fun hall s hs => hall s (hperm.mem_iff.mpr hs)⟩

/-- Witness for C1 at a concrete input: children `[{"a","b"}, {"b","c"}]`
and their transposition; both evaluate to the intersection `{"b"}`. -/
theorem logicAnd_eq_inter_and_perm_invariant_witness :
    logicAndHandler [{['a'], ['b']}, {['b'], ['c']}] =
      setListInter [{['a'], ['b']}, {['b'], ['c']}] ∧
    logicAndHandler [{['b'], ['c']}, {['a'], ['b']}] =
      logicAndHandler [{['a'], ['b']}, {['b'], ['c']}] :=
  logicAnd_eq_inter_and_perm_invariant _ _ (by decide) (by decide)

/-! ## Errors raised by the backend

One constructor per exception class the modelled code paths can raise
(`candig.metadata.exceptions`; the module itself only declares the
classes, so the constructors carry just the distinguishing message). -/

inductive ApiError where
  | notAuthorized (msg : String)
  | badRequest (msg : String)
  | badInputType
  | badFilterKey
  | missingFieldName (msg : String)
  | invalidLogic (msg : String)
  | badPageToken
  | objectWithIdNotFound
  | badIdentifierNotString
  | binasciiError
  | pyIndexError
  | pyValueError
  | pyTypeError
  | pyAttributeError
  deriving DecidableEq, Repr

/-! ## Page tokens

`Backend._topLevelObjectGenerator` and `Backend._protocolObjectGenerator`
((`backend.py`) both decode `request.page_token` with
`paging._parsePageToken(request.page_token, 1)` and emit the next token
as `str(currentIndex)`.  The `paging` module is not part of this
repository checkout; its behaviour is modelled from the specification. -/

/-- The decimal digit characters, as produced by Python `str(int)`. -/
def digitChar (d : Nat) : Char :=
  match d with
  | 0 => '0' | 1 => '1' | 2 => '2' | 3 => '3' | 4 => '4'
  | 5 => '5' | 6 => '6' | 7 => '7' | 8 => '8' | _ => '9'

/-- Python `str(n)` for a non-negative integer: its decimal digits. -/
def natToPyStr (n : Nat) : PyStr :=
  if h : n < 10 then [digitChar n]
  else natToPyStr (n / 10) ++ [digitChar (n % 10)]
decreasing_by exact Nat.div_lt_self (by omega) (by omega)

def digitVal? (c : Char) : Option Nat :=
  if 48 ≤ c.toNat ∧ c.toNat ≤ 57 then some (c.toNat - 48) else none

def parseDigits (acc : Nat) : PyStr → Option Nat
  | [] => some acc
  | c :: cs =>
    match digitVal? c with
    | none => none
    | some d => parseDigits (10 * acc + d) cs

/-- Python `int(s)` restricted to plain decimal digit strings (the only
form the paging layer ever produces, namely `str(index)`). -/
def pyStrToNat? (s : PyStr) : Option Nat :=
  if s = [] then none else parseDigits 0 s

/-- Modelled from the spec: `paging._parsePageToken(token, 1)` — the
`paging` module is absent from this checkout.  A page token decodes to
one or more colon-separated integer cursor components; with one
component expected, the whole token must be a single integer, and a
malformed token raises a bad-token error. -/
def parsePageToken1 (tok : PyStr) : Except ApiError Nat :=
  match pyStrToNat? tok with
  | some n => .ok n
  | none => .error .badPageToken

theorem digitVal?_digitChar : ∀ d < 10, digitVal? (digitChar d) = some d := by decide

theorem natToPyStr_ne_nil (n : Nat) : natToPyStr n ≠ [] := by
  unfold natToPyStr
  split <;> simp

theorem parseDigits_append (acc : Nat) (xs ys : PyStr) :
    parseDigits acc (xs ++ ys) =
      (parseDigits acc xs).bind (fun a => parseDigits a ys) := by
  induction xs generalizing acc with
  | nil => rfl
  | cons c cs ih =>
    simp only [List.cons_append, parseDigits]
    cases digitVal? c with
    | none => rfl
    | some d => exact ih _

theorem parseDigits_natToPyStr (n : Nat) :
    ∀ acc, parseDigits acc (natToPyStr n) =
      some (acc * 10 ^ (natToPyStr n).length + n) := by
  induction n using natToPyStr.induct with
  | case1 n h =>
    intro acc
    unfold natToPyStr
    rw [dif_pos h]
    simp [parseDigits, digitVal?_digitChar n h]
    omega
  | case2 n h ih =>
    intro acc
    unfold natToPyStr
    rw [dif_neg h]
    rw [parseDigits_append]
    rw [ih acc]
    simp only [Option.some_bind, parseDigits, digitVal?_digitChar (n % 10) (by omega),
      List.length_append, List.length_cons, List.length_nil]
    have hp : (10 : Nat) ^ ((natToPyStr (n / 10)).length + (0 + 1)) =
        10 ^ (natToPyStr (n / 10)).length * 10 := by ring
    rw [hp]
    congr 1
    have h10 : 10 * (n / 10) + n % 10 = n := by omega
    calc 10 * (acc * 10 ^ (natToPyStr (n / 10)).length + n / 10) + n % 10
        = acc * (10 ^ (natToPyStr (n / 10)).length * 10) + (10 * (n / 10) + n % 10) := by
          ring
      _ = acc * (10 ^ (natToPyStr (n / 10)).length * 10) + n := by rw [h10]

/-- Python `str`/`int` round-trip for decimal page tokens. -/
theorem pyStrToNat?_natToPyStr (n : Nat) : pyStrToNat? (natToPyStr n) = some n := by
  unfold pyStrToNat?
  rw [if_neg (natToPyStr_ne_nil n)]
  rw [parseDigits_natToPyStr n 0]
  simp

/-! ## The resumable pagination generator

`Backend._topLevelObjectGenerator` and `Backend._protocolObjectGenerator`
(`backend.py`) share one loop; they differ only in
what `fetch` returns (`getByIndexMethod(i).toProtocolElement(tier)`
versus the protocol object itself), which we abstract as `fetch`:

```python
currentIndex = 0
if request.page_token:
    currentIndex, = paging._parsePageToken(request.page_token, 1)
while currentIndex < numObjects:
    object_ = getByIndexMethod(currentIndex)
    currentIndex += 1
    nextPageToken = None
    if currentIndex < numObjects:
        nextPageToken = str(currentIndex)
    yield object_, nextPageToken
```
-/

/-- The `while currentIndex < numObjects` loop of the generators. -/
def pagingLoop (numObjects : Nat) (fetch : Nat → γ) (currentIndex : Nat) :
    List (γ × Option PyStr) :=
  if currentIndex < numObjects then
    (fetch currentIndex,
      if currentIndex + 1 < numObjects then some (natToPyStr (currentIndex + 1)) else none)
      :: pagingLoop numObjects fetch (currentIndex + 1)
  else []
termination_by numObjects - currentIndex

/-- `Backend._topLevelObjectGenerator` / `_protocolObjectGenerator`:
decode the starting index from the request's page token (`0` when the
token is empty, Python falsiness of `""`), then run the yield loop. -/
def topLevelObjectGenerator (page_token : PyStr) (numObjects : Nat) (fetch : Nat → γ) :
    Except ApiError (List (γ × Option PyStr)) := do
  let currentIndex ← if page_token = ([] : PyStr) then pure 0 else parsePageToken1 page_token
  pure (pagingLoop numObjects fetch currentIndex)

/-- Modelled from the spec: the response builder (module
`response_builder`, absent from this checkout) consumes at most
`pageSize` pairs from the generator and the last consumed pair's token
becomes the response's continuation token; the caller re-invokes with
that token until it is absent.  `fuel` bounds the number of pages
(any `fuel ≥ ⌈numObjects/pageSize⌉` is enough). -/
def collectPages (numObjects pageSize : Nat) (fetch : Nat → γ) :
    Nat → PyStr → Except ApiError (List γ)
  | 0, _ => .ok []
  | fuel + 1, tok => do
    let page ← topLevelObjectGenerator tok numObjects fetch
    let taken := page.take pageSize
    match taken.getLast? with
    | none => pure []
    | some (_, none) => pure (taken.map Prod.fst)
    | some (_, some nextTok) => do
        let rest ← collectPages numObjects pageSize fetch fuel nextTok
        pure (taken.map Prod.fst ++ rest)

theorem pagingLoop_eq (numObjects : Nat) (fetch : Nat → γ) :
    ∀ currentIndex,
      pagingLoop numObjects fetch currentIndex =
        (List.range' currentIndex (numObjects - currentIndex)).map
          (fun i => (fetch i,
            if i + 1 = numObjects then none else some (natToPyStr (i + 1)))) := by
  intro currentIndex
  induction currentIndex using pagingLoop.induct numObjects fetch with
  | case1 i hi ih =>
    rw [pagingLoop, if_pos hi]
    have hr : numObjects - i = (numObjects - (i + 1)) + 1 := by omega
    rw [hr]
    rw [List.range'_succ]
    rw [List.map_cons, ih]
    congr 2
    by_cases hlast : i + 1 = numObjects
    · rw [if_pos hlast, if_neg (by omega)]
    · rw [if_neg hlast, if_pos (by omega)]
  | case2 i hi =>
    rw [pagingLoop, if_neg hi]
    have hr : numObjects - i = 0 := by omega
    rw [hr]
    rfl

theorem range'_take (m : Nat) : ∀ (s k : Nat),
    (List.range' s k).take m = List.range' s (min m k) := by
  induction m with
  | zero => intro s k; simp
  | succ m ih =>
    intro s k
    cases k with
    | zero => simp
    | succ k =>
      rw [List.range'_succ, List.take_succ_cons, ih]
      have : min (m + 1) (k + 1) = min m k + 1 := by omega
      rw [this, List.range'_succ]

theorem except_bind_ok {E A B : Type} (a : A) (f : A → Except E B) :
    (Except.ok a >>= f : Except E B) = f a := rfl

theorem except_pure_eq {E A : Type} (a : A) : (pure a : Except E A) = Except.ok a := rfl

theorem map_range'_getLast? (f : Nat → γ) (s m : Nat) (hm : 0 < m) :
    ((List.range' s m).map f).getLast? = some (f (s + m - 1)) := by
  rw [show m = (m - 1) + 1 by omega, List.range'_concat, List.map_append]
  simp only [List.map_cons, List.map_nil]
  rw [List.getLast?_concat]
  congr 2
  omega

theorem collectPages_from (N P : Nat) (fetch : Nat → γ) (hP : 0 < P) :
    ∀ (fuel start : Nat) (tok : PyStr),
      (tok = ([] : PyStr) ∧ start = 0 ∨ tok = natToPyStr start) →
      N - start ≤ fuel * P →
      collectPages N P fetch fuel tok = .ok ((List.range' start (N - start)).map fetch) := by
  intro fuel
  induction fuel with
  | zero =>
    intro start tok _ hfuel
    have h0 : N - start = 0 := by omega
    rw [h0]
    rfl
  | succ fuel ih =>
    intro start tok htok hfuel
    have htop : topLevelObjectGenerator tok N fetch = .ok (pagingLoop N fetch start) := by
      rcases htok with ⟨h1, h2⟩ | h1
      · subst h1; subst h2; rfl
      · subst h1
        unfold topLevelObjectGenerator
        rw [if_neg (natToPyStr_ne_nil start)]
        unfold parsePageToken1
        rw [pyStrToNat?_natToPyStr]
        rfl
    simp only [collectPages, htop, except_bind_ok, pagingLoop_eq]
    rw [← List.map_take, range'_take]
    by_cases hk0 : N - start = 0
    · rw [hk0]
      simp [except_pure_eq]
    · by_cases hkP : N - start ≤ P
      · have hmin : min P (N - start) = N - start := by omega
        rw [hmin]
        rw [map_range'_getLast? _ _ _ (by omega)]
        have hlastN : start + (N - start) - 1 + 1 = N := by omega
        rw [if_pos hlastN]
        simp only [List.map_map]
        rfl
      · have hmin : min P (N - start) = P := by omega
        rw [hmin]
        rw [map_range'_getLast? _ _ _ (by omega)]
        have hlastN : ¬ (start + P - 1 + 1 = N) := by omega
        rw [if_neg hlastN]
        have hnext : start + P - 1 + 1 = start + P := by omega
        rw [hnext]
        dsimp only
        rw [ih (start + P) (natToPyStr (start + P)) (Or.inr rfl) (by
          have hmul : (fuel + 1) * P = fuel * P + P := by ring
          omega)]
        simp only [except_bind_ok, except_pure_eq, List.map_map]
        congr 1
        have hsplit : List.range' start (N - start) =
            List.range' start P ++ List.range' (start + P) (N - start - P) := by
          have happ := List.range'_append start P (N - start - P) 1
          simp only [one_mul] at happ
          rw [happ]
          congr 1
          omega
        rw [hsplit, List.map_append]
        have h2 : N - (start + P) = N - start - P := by omega
        rw [h2]
        rfl

/-- C4: for every total object count `N`, every starting offset decoded
from the request's page token (0 when the token is empty) and every
index-fetch function, the paging generator yields `(fetch i, nextToken)`
for each `i` from the start while `i < N`, where the next token is the
decimal string of `i + 1` except that it is absent when `i + 1 = N`;
consequently, for any page size `P` with `0 < P ≤ N`, re-invoking with
each returned next token until it is absent yields exactly the `N`
objects in order, with no duplicates and no gaps. -/
theorem paging_generator_yields_and_chain_covers {γ : Type}
    (N : Nat) (fetch : Nat → γ) (start : Nat) (P : Nat) (hP : 0 < P) (_hPN : P ≤ N) :
    topLevelObjectGenerator (natToPyStr start) N fetch =
      .ok ((List.range' start (N - start)).map
        (fun i => (fetch i, if i + 1 = N then none else some (natToPyStr (i + 1))))) ∧
    topLevelObjectGenerator [] N fetch =
      .ok ((List.range N).map
        (fun i => (fetch i, if i + 1 = N then none else some (natToPyStr (i + 1))))) ∧
    collectPages N P fetch N [] = .ok ((List.range N).map fetch) := by
  refine ⟨?_, ?_, ?_⟩
  · unfold topLevelObjectGenerator
    rw [if_neg (natToPyStr_ne_nil start)]
    unfold parsePageToken1
    rw [pyStrToNat?_natToPyStr]
    show Except.ok (pagingLoop N fetch start) = _
    rw [pagingLoop_eq]
  · show Except.ok (pagingLoop N fetch 0) = _
    rw [pagingLoop_eq, List.range_eq_range']
    congr 1
  · rw [collectPages_from N P fetch hP N 0 [] (Or.inl ⟨rfl, rfl⟩)
      (by simpa using Nat.le_mul_of_pos_right N hP)]
    rw [List.range_eq_range']
    norm_num

/-- Witness for C4 at `N = 3`, `P = 2`, `start = 1`, `fetch = id`. -/
theorem paging_generator_yields_and_chain_covers_witness :
    topLevelObjectGenerator (natToPyStr 1) 3 (fun i => i) =
      .ok ((List.range' 1 (3 - 1)).map
        (fun i => (i, if i + 1 = 3 then none else some (natToPyStr (i + 1))))) ∧
    topLevelObjectGenerator [] 3 (fun i => i) =
      .ok ((List.range 3).map
        (fun i => (i, if i + 1 = 3 then none else some (natToPyStr (i + 1))))) ∧
    collectPages 3 2 (fun i => i) 3 [] = .ok ((List.range 3).map (fun i => i)) :=
  paging_generator_yields_and_chain_covers 3 (fun i => i) 1 2 (by decide) (by decide)

/-! ## The filter engine

`Backend.comparisonGenerator` and `Backend.filtersValidator`
(`backend.py`).  The value domain of filters (field
values from the protocol objects, compared with Python's dynamic
operators) is abstracted as a type `α` together with one partial binary
Boolean function per entry of the backend's `self.ops` table
(`operator.gt`, `operator.lt`, ..., `operator.contains`); `none` models
a `TypeError` raised by the comparison.  An object's dynamic field
lookup `obj.mapper(fieldName)` is a function `PyStr → Option α`, with
`none` modelling a `KeyError`/`AttributeError` raised by the lookup
(the two exception classes `comparisonGenerator` catches). -/

/-- The Python-level semantics of the binary operators installed in the
backend's `self.ops` table, over an abstract value domain. -/
structure PyOps (α : Type) where
  gt : α → α → Option Bool
  lt : α → α → Option Bool
  ge : α → α → Option Bool
  le : α → α → Option Bool
  eq : α → α → Option Bool
  ne : α → α → Option Bool
  contains : α → α → Option Bool

/-- `self.ops` from `Backend.__init__`: operator-name strings
to binary operators; an unknown name is a `KeyError` (`none`). -/
def opsLookup (ops : PyOps α) (name : PyStr) : Option (α → α → Option Bool) :=
  if name = ">".data ∨ name = "gt".data then some ops.gt
  else if name = "<".data ∨ name = "lt".data then some ops.lt
  else if name = ">=".data ∨ name = "ge".data then some ops.ge
  else if name = "<=".data ∨ name = "le".data then some ops.le
  else if name = "eq".data ∨ name = "=".data ∨ name = "==".data then some ops.eq
  else if name = "!=".data ∨ name = "ne".data then some ops.ne
  else if name = "contains".data then some ops.contains
  else none

/-- Python `str.lower()` (the operator names are ASCII). -/
def pyLower (s : PyStr) : PyStr := s.map Char.toLower

/-- A validated filter dict: the four keys a filter dict may carry.
`values`, when present, has been materialized as a set by
`filtersValidator`. -/
structure PyFilter (α : Type) where
  field : Option PyStr
  operator : Option PyStr
  value : Option α
  values : Option (Finset α)

/-- A raw filter dict as it arrives in the request, before validation
(`values` still a JSON list). -/
structure RawFilter (α : Type) where
  field : Option PyStr
  operator : Option PyStr
  value : Option α
  values : Option (List α)

/-- `Backend.comparisonGenerator`: one pass over the
filter list, stopping at the first failing filter; `"value" not in
filter` chooses the membership branch, otherwise the named operator is
looked up lowercased in `self.ops` and applied to
`(obj.mapper(field), value)`.  `TypeError` becomes
`BadInputTypeException`, `KeyError`/`AttributeError` become
`BadFilterKeyException`. -/
def comparisonGenerator [DecidableEq α] (ops : PyOps α) (mapper : PyStr → Option α) :
    List (PyFilter α) → Except ApiError Bool
  | [] => .ok true
  | f :: rest =>
    match f.value with
    | none =>
      match f.values with
      | none => .ok false
      | some vs =>
        match f.field with
        | none => .error .badFilterKey
        | some fld =>
          match mapper fld with
          | none => .error .badFilterKey
          | some v => if v ∈ vs then comparisonGenerator ops mapper rest else .ok false
    | some fv =>
      match f.operator with
      | none => .error .badFilterKey
      | some opName =>
        match opsLookup ops (pyLower opName) with
        | none => .error .badFilterKey
        | some op =>
          match f.field with
          | none => .error .badFilterKey
          | some fld =>
            match mapper fld with
            | none => .error .badFilterKey
            | some v =>
              match op v fv with
              | none => .error .badInputType
              | some b => if b then comparisonGenerator ops mapper rest else .ok false

/-- The single-filter pass/fail semantics the specification describes:
`some true`/`some false` when the filter evaluates, `none` when its
evaluation raises.  A filter carrying neither `value` nor `values` is
treated by the source as simply failing the object (not as an error). -/
def filterPasses [DecidableEq α] (ops : PyOps α) (mapper : PyStr → Option α)
    (f : PyFilter α) : Option Bool :=
  match f.value with
  | none =>
    match f.values with
    | none => some false
    | some vs => do
      let fld ← f.field
      let v ← mapper fld
      some (decide (v ∈ vs))
  | some fv => do
    let opName ← f.operator
    let op ← opsLookup ops (pyLower opName)
    let fld ← f.field
    let v ← mapper fld
    op v fv

theorem comparisonGenerator_eval [DecidableEq α] (ops : PyOps α) (mapper : PyStr → Option α) :
    ∀ (filters : List (PyFilter α)),
      (∀ f ∈ filters, filterPasses ops mapper f ≠ none) →
      comparisonGenerator ops mapper filters =
        .ok (filters.all (fun f => filterPasses ops mapper f == some true)) := by
  intro filters
  induction filters with
  | nil => intro _; rfl
  | cons f rest ih =>
    intro hwf
    have hf : filterPasses ops mapper f ≠ none := hwf f (by simp)
    have hrest : ∀ g ∈ rest, filterPasses ops mapper g ≠ none :=
      fun g hg => hwf g (by simp [hg])
    rw [List.all_cons]
    cases hv : f.value with
    | none =>
      cases hvs : f.values with
      | none =>
        simp [comparisonGenerator, filterPasses, hv, hvs]
      | some vs =>
        cases hfld : f.field with
        | none =>
          exact absurd (by simp [filterPasses, hv, hvs, hfld]) hf
        | some fld =>
          cases hm : mapper fld with
          | none =>
            exact absurd (by simp [filterPasses, hv, hvs, hfld, hm]) hf
          | some v =>
            by_cases hmem : v ∈ vs
            · simp [comparisonGenerator, filterPasses, hv, hvs, hfld, hm, hmem, ih hrest]
            · simp [comparisonGenerator, filterPasses, hv, hvs, hfld, hm, hmem]
    | some fv =>
      cases hop : f.operator with
      | none =>
        exact absurd (by simp [filterPasses, hv, hop]) hf
      | some opName =>
        cases hol : opsLookup ops (pyLower opName) with
        | none =>
          exact absurd (by simp [filterPasses, hv, hop, hol]) hf
        | some op =>
          cases hfld : f.field with
          | none =>
            exact absurd (by simp [filterPasses, hv, hop, hol, hfld]) hf
          | some fld =>
            cases hm : mapper fld with
            | none =>
              exact absurd (by simp [filterPasses, hv, hop, hol, hfld, hm]) hf
            | some v =>
              cases hcmp : op v fv with
              | none =>
                exact absurd (by simp [filterPasses, hv, hop, hol, hfld, hm, hcmp]) hf
              | some b =>
                cases b with
                | true =>
                  simp [comparisonGenerator, filterPasses, hv, hop, hol, hfld, hm, hcmp,
                    ih hrest]
                | false =>
                  simp [comparisonGenerator, filterPasses, hv, hop, hol, hfld, hm, hcmp]

theorem comparisonGenerator_cons_false [DecidableEq α] (ops : PyOps α)
    (mapper : PyStr → Option α) (f : PyFilter α)
    (hf : filterPasses ops mapper f = some false) (rest : List (PyFilter α)) :
    comparisonGenerator ops mapper (f :: rest) = .ok false := by
  cases hv : f.value with
  | none =>
    cases hvs : f.values with
    | none => simp [comparisonGenerator, hv, hvs]
    | some vs =>
      cases hfld : f.field with
      | none => simp [filterPasses, hv, hvs, hfld] at hf
      | some fld =>
        cases hm : mapper fld with
        | none => simp [filterPasses, hv, hvs, hfld, hm] at hf
        | some v =>
          have hmem : ¬ v ∈ vs := by
            by_contra hmem
            simp [filterPasses, hv, hvs, hfld, hm, hmem] at hf
          simp [comparisonGenerator, hv, hvs, hfld, hm, hmem]
  | some fv =>
    cases hop : f.operator with
    | none => simp [filterPasses, hv, hop] at hf
    | some opName =>
      cases hol : opsLookup ops (pyLower opName) with
      | none => simp [filterPasses, hv, hop, hol] at hf
      | some op =>
        cases hfld : f.field with
        | none => simp [filterPasses, hv, hop, hol, hfld] at hf
        | some fld =>
          cases hm : mapper fld with
          | none => simp [filterPasses, hv, hop, hol, hfld, hm] at hf
          | some v =>
            cases hcmp : op v fv with
            | none => simp [filterPasses, hv, hop, hol, hfld, hm, hcmp] at hf
            | some b =>
              have hb : b = false := by
                have := hf
                simp [filterPasses, hv, hop, hol, hfld, hm, hcmp] at this
                exact this
              subst hb
              simp [comparisonGenerator, hv, hop, hol, hfld, hm, hcmp]

/-- C6: for every object exposing a field mapper and every well-formed
filter list (each filter evaluates without raising),
`Backend.comparisonGenerator` returns `True` iff the object passes
every individual filter — a filter with a `values` set passes iff the
mapped field value is a member of the set, and a filter with a scalar
`value` passes iff the named binary operator applied to
`(mapped value, filter value)` holds (this is what `filterPasses`
computes) — and evaluation stops at the first failing filter: a list
headed by a failing filter yields `False` whatever follows it. -/
theorem comparisonGenerator_conjunction_and_short_circuit [DecidableEq α]
    (ops : PyOps α) (mapper : PyStr → Option α) (filters : List (PyFilter α))
    (hwf : ∀ f ∈ filters, filterPasses ops mapper f ≠ none)
    (f0 : PyFilter α) (hf0 : filterPasses ops mapper f0 = some false)
    (rest : List (PyFilter α)) :
    (comparisonGenerator ops mapper filters = .ok true ↔
      ∀ g ∈ filters, filterPasses ops mapper g = some true) ∧
    comparisonGenerator ops mapper (f0 :: rest) = .ok false := by
  constructor
  · rw [comparisonGenerator_eval ops mapper filters hwf]
    constructor
    · intro h g hg
      have hall : filters.all (fun f => filterPasses ops mapper f == some true) = true := by
        injection h
      rw [List.all_eq_true] at hall
      have := hall g hg
      simpa using this
    · intro h
      have hall : filters.all (fun f => filterPasses ops mapper f == some true) = true := by
        rw [List.all_eq_true]
        intro g hg
        simpa using h g hg
      rw [hall]
  · exact comparisonGenerator_cons_false ops mapper f0 hf0 rest

/-- Witness gadget: Python integer comparison semantics over `Nat`
(two integers compare without `TypeError`; `in`/`contains` on an
integer raises, hence `none`). -/
def natPyOps : PyOps Nat where
  gt a b := some (decide (a > b))
  lt a b := some (decide (a < b))
  ge a b := some (decide (a ≥ b))
  le a b := some (decide (a ≤ b))
  eq a b := some (decide (a = b))
  ne a b := some (decide (a ≠ b))
  contains _ _ := none

/-- Witness gadget: an object whose `age` field is 5. -/
def wMapper : PyStr → Option Nat := fun fld => if fld = "age".data then some 5 else none

def wFilters : List (PyFilter Nat) :=
  [⟨some ("age".data), some ("gt".data), some 3, none⟩,
   ⟨some ("age".data), some ("in".data), none, some {4, 5}⟩]

def wFailFilter : PyFilter Nat := ⟨some ("age".data), some ("lt".data), some 3, none⟩

def wRest : List (PyFilter Nat) := [⟨none, none, some 3, none⟩]

/-- Witness for C6: a two-filter list over a concrete object (both an
operator filter and a membership filter), and short-circuiting on a
failing head filter followed by a filter that would raise. -/
theorem comparisonGenerator_conjunction_and_short_circuit_witness :
    (comparisonGenerator natPyOps wMapper wFilters = .ok true ↔
      ∀ g ∈ wFilters, filterPasses natPyOps wMapper g = some true) ∧
    comparisonGenerator natPyOps wMapper (wFailFilter :: wRest) = .ok false :=
  comparisonGenerator_conjunction_and_short_circuit natPyOps wMapper wFilters
    (by decide) wFailFilter (by decide) wRest

/-- The per-entity scan loop shared by every entity search generator
(`patientsGenerator` through `expressionAnalysisGenerator`,
`backend.py`): keep, in collection order, each object for
which `comparisonGenerator` returns true; an exception raised by
`comparisonGenerator` propagates out of the generator. -/
def scanObjects [DecidableEq α] (ops : PyOps α) (mapperOf : β → PyStr → Option α)
    (filters : List (PyFilter α)) : List β → Except ApiError (List β)
  | [] => .ok []
  | obj :: rest => do
    let qualified ← comparisonGenerator ops (mapperOf obj) filters
    let tail ← scanObjects ops mapperOf filters rest
    pure (if qualified then obj :: tail else tail)

/-- C10 (implicit): for every object, `Backend.comparisonGenerator`
applied to the empty filter list returns `True`, and therefore a search
request that supplies no filters keeps every entity of the dataset's
collection (the conjunction over zero filters is vacuously satisfied). -/
theorem comparisonGenerator_nil_true_matches_all [DecidableEq α]
    (ops : PyOps α) (mapperOf : β → PyStr → Option α) (objs : List β) :
    (∀ mapper : PyStr → Option α, comparisonGenerator ops mapper [] = .ok true) ∧
    scanObjects ops mapperOf [] objs = .ok objs := by
  refine ⟨fun _ => rfl, ?_⟩
  induction objs with
  | nil => rfl
  | cons o rest ih =>
    show (comparisonGenerator ops (mapperOf o) [] >>= fun qualified =>
      scanObjects ops mapperOf [] rest >>= fun tail =>
        pure (if qualified then o :: tail else tail)) = Except.ok (o :: rest)
    rw [show comparisonGenerator ops (mapperOf o) ([] : List (PyFilter α)) = .ok true from rfl]
    rw [except_bind_ok, ih, except_bind_ok]
    rfl

/-- `Backend.filtersValidator`: check each raw filter
dict in order — `field` and `operator` must both be present, exactly one
of `value`/`values`, `values` exactly when the operator is `"in"` — and
materialize each surviving `values` list as a set
(`filt["values"] = set(filt["values"])`).  The first violation raises
`BadRequestException` with a message naming the offending rule. -/
def filtersValidator [DecidableEq α] : List (RawFilter α) → Except ApiError (List (PyFilter α))
  | [] => .ok []
  | filt :: rest =>
    if filt.field = none ∨ filt.operator = none then
      .error (.badRequest "Please specify field and/or operator in your filters.")
    else if filt.value.isSome ∧ filt.values.isSome then
      .error (.badRequest "You can only specify one of value or values in one filter.")
    else if filt.value.isSome then
      if filt.operator = some ("in".data) then
        .error (.badRequest "You can only use the in operator when you supply a list of values in your filter.")
      else do
        let tail ← filtersValidator rest
        pure (⟨filt.field, filt.operator, filt.value, none⟩ :: tail)
    else if filt.values.isSome then
      if filt.operator ≠ some ("in".data) then
        .error (.badRequest "If you specify a list of values in your filter, the operator has to be in.")
      else do
        let tail ← filtersValidator rest
        pure (⟨filt.field, filt.operator, none, filt.values.map List.toFinset⟩ :: tail)
    else
      .error (.badRequest "You need to specify one of value or values in one filter.")

/-- The well-formedness invariant the specification states for a raw
filter: `field` and `operator` present, exactly one of `value`/`values`,
and `values` present iff the operator is the membership operator `in`. -/
def rawFilterWellFormed (f : RawFilter α) : Prop :=
  f.field.isSome ∧ f.operator.isSome ∧
  ((f.value.isSome ∧ f.values = none ∧ f.operator ≠ some ("in".data)) ∨
   (f.value = none ∧ f.values.isSome ∧ f.operator = some ("in".data)))

instance [DecidableEq α] : DecidablePred (rawFilterWellFormed (α := α)) := by
  intro f
  unfold rawFilterWellFormed
  infer_instance

/-- The per-filter output shape of a successful validation. -/
def validatedShape [DecidableEq α] (f : RawFilter α) : PyFilter α :=
  if f.value.isSome then ⟨f.field, f.operator, f.value, none⟩
  else ⟨f.field, f.operator, none, f.values.map List.toFinset⟩

theorem filtersValidator_ok_of_wf [DecidableEq α] :
    ∀ (l : List (RawFilter α)), (∀ f ∈ l, rawFilterWellFormed f) →
      filtersValidator l = .ok (l.map validatedShape) := by
  intro l
  induction l with
  | nil => intro _; rfl
  | cons filt rest ih =>
    intro hwf
    obtain ⟨hfield, hop, hcases⟩ := hwf filt (by simp)
    have htail := ih (fun f hf => hwf f (by simp [hf]))
    have h1 : ¬ (filt.field = none ∨ filt.operator = none) := by
      simp only [Option.isSome_iff_exists] at hfield hop
      obtain ⟨x, hx⟩ := hfield
      obtain ⟨y, hy⟩ := hop
      simp [hx, hy]
    rcases hcases with ⟨hv, hvs, hnotin⟩ | ⟨hv, hvs, hin⟩
    · have h2 : ¬ (filt.value.isSome ∧ filt.values.isSome) := by
        simp [hvs]
      rw [filtersValidator, if_neg h1, if_neg h2, if_pos hv, if_neg hnotin, htail,
        except_bind_ok]
      rw [List.map_cons]
      rw [show validatedShape filt = ⟨filt.field, filt.operator, filt.value, none⟩ from by
        unfold validatedShape; rw [if_pos hv]]
      rfl
    · have h2 : ¬ (filt.value.isSome ∧ filt.values.isSome) := by
        simp [hv]
      have h3 : ¬ filt.value.isSome = true := by simp [hv]
      rw [filtersValidator, if_neg h1, if_neg h2, if_neg h3, if_pos hvs,
        if_neg (by simp [hin]), htail, except_bind_ok]
      rw [List.map_cons]
      rw [show validatedShape filt = ⟨filt.field, filt.operator, none, filt.values.map List.toFinset⟩ from by
        unfold validatedShape; rw [if_neg h3]]
      rfl

theorem filtersValidator_error_of_not_wf [DecidableEq α] :
    ∀ (l : List (RawFilter α)), ¬ (∀ f ∈ l, rawFilterWellFormed f) →
      ∃ msg, filtersValidator l = .error (.badRequest msg) := by
  intro l
  induction l with
  | nil => intro h; exact absurd (by simp) h
  | cons filt rest ih =>
    intro hnwf
    by_cases h1 : filt.field = none ∨ filt.operator = none
    · exact ⟨_, by rw [filtersValidator, if_pos h1]⟩
    · by_cases h2 : filt.value.isSome ∧ filt.values.isSome
      · exact ⟨_, by rw [filtersValidator, if_neg h1, if_pos h2]⟩
      · have hfield : filt.field.isSome := by
          rcases hf : filt.field with _ | x
          · exact absurd (Or.inl hf) h1
          · rfl
        have hopsome : filt.operator.isSome := by
          rcases ho : filt.operator with _ | y
          · exact absurd (Or.inr ho) h1
          · rfl
        by_cases h3 : filt.value.isSome
        · by_cases h4 : filt.operator = some ("in".data)
          · exact ⟨_, by rw [filtersValidator, if_neg h1, if_neg h2, if_pos h3, if_pos h4]⟩
          · -- head is well-formed; the violation is in the tail
            have hwfhead : rawFilterWellFormed filt := by
              refine ⟨hfield, hopsome, Or.inl ⟨h3, ?_, h4⟩⟩
              rcases hvs : filt.values with _ | vs
              · rfl
              · exact absurd ⟨h3, by rw [hvs]; rfl⟩ h2
            have hrest : ¬ (∀ f ∈ rest, rawFilterWellFormed f) := by
              intro hall
              exact hnwf (by
                intro f hf
                rcases List.mem_cons.mp hf with h | h
                · exact h ▸ hwfhead
                · exact hall f h)
            obtain ⟨msg, herr⟩ := ih hrest
            refine ⟨msg, ?_⟩
            rw [filtersValidator, if_neg h1, if_neg h2, if_pos h3, if_neg h4, herr]
            rfl
        · by_cases h5 : filt.values.isSome
          · by_cases h6 : filt.operator = some ("in".data)
            · have hwfhead : rawFilterWellFormed filt := by
                refine ⟨hfield, hopsome, Or.inr ⟨?_, h5, h6⟩⟩
                rcases hv : filt.value with _ | v
                · rfl
                · exact absurd (by rw [hv]; rfl) h3
              have hrest : ¬ (∀ f ∈ rest, rawFilterWellFormed f) := by
                intro hall
                exact hnwf (by
                  intro f hf
                  rcases List.mem_cons.mp hf with h | h
                  · exact h ▸ hwfhead
                  · exact hall f h)
              obtain ⟨msg, herr⟩ := ih hrest
              refine ⟨msg, ?_⟩
              rw [filtersValidator, if_neg h1, if_neg h2, if_neg h3, if_pos h5,
                if_neg (by simp [h6]), herr]
              rfl
            · exact ⟨_, by
                rw [filtersValidator, if_neg h1, if_neg h2, if_neg h3, if_pos h5,
                  if_pos (by simp [h6])]⟩
          · exact ⟨_, by rw [filtersValidator, if_neg h1, if_neg h2, if_neg h3, if_neg h5]⟩

/-- `Backend.getUserAccessTier`: look the dataset's
local name up in the caller-supplied access map; absence raises
`NotAuthorizedException`.  The map's values are the integer tiers
(`int(access_map[dataset_name])`). -/
def getUserAccessTier (datasetLocalId : PyStr) (access_map : PyStr → Option Int) :
    Except ApiError Int :=
  match access_map datasetLocalId with
  | some tier => .ok tier
  | none => .error (.notAuthorized "Not authorized to access this dataset")

/-- The shared body of the entity search generators
(`Backend.patientsGenerator` and its per-entity copies,
`backend.py`): resolve the access tier, validate the
filters, then scan the dataset's collection in order.  The source
finally wraps `results` in `_objectListGenerator(request, results,
tier=tier)` — i.e. `pagingLoop` applied to `results` with objects
converted at `tier` — so we return the `(results, tier)` pair that
wrapper consumes. -/
def entitySearchGenerator [DecidableEq α] (ops : PyOps α)
    (mapperOf : β → PyStr → Option α) (datasetLocalId : PyStr)
    (access_map : PyStr → Option Int) (collection : List β)
    (rawFilters : List (RawFilter α)) : Except ApiError (List β × Int) := do
  let tier ← getUserAccessTier datasetLocalId access_map
  let filters ← filtersValidator rawFilters
  let results ← scanObjects ops mapperOf filters collection
  pure (results, tier)

/-- C7: for every raw filter list, validation succeeds iff each filter
has both `field` and `operator` and exactly one of `value`/`values`,
with `values` present iff the operator is the membership operator `in`
(`rawFilterWellFormed`); on success each surviving `values` list has
been materialized as a deduplicated set (`List.toFinset`); any
violation raises a bad-request error, and it does so before any object
of the collection is scanned — the generator's outcome is the
validation error no matter what the collection holds. -/
theorem filtersValidator_wellformed_iff [DecidableEq α] (rawFilters : List (RawFilter α)) :
    ((filtersValidator rawFilters).isOk = true ↔
      ∀ f ∈ rawFilters, rawFilterWellFormed f) ∧
    (∀ out, filtersValidator rawFilters = .ok out → out = rawFilters.map validatedShape) ∧
    (∀ e, filtersValidator rawFilters = .error e →
      (∃ msg, e = .badRequest msg) ∧
      ∀ {β : Type} (ops : PyOps α) (mapperOf : β → PyStr → Option α)
        (name : PyStr) (amap : PyStr → Option Int) (tier : Int) (collection : List β),
        amap name = some tier →
        entitySearchGenerator ops mapperOf name amap collection rawFilters = .error e) := by
  refine ⟨⟨?_, ?_⟩, ?_, ?_⟩
  · intro hok
    by_contra hnwf
    obtain ⟨msg, herr⟩ := filtersValidator_error_of_not_wf rawFilters hnwf
    rw [herr] at hok
    simp [Except.isOk, Except.toBool] at hok
  · intro hwf
    rw [filtersValidator_ok_of_wf rawFilters hwf]
    rfl
  · intro out hout
    by_cases hwf : ∀ f ∈ rawFilters, rawFilterWellFormed f
    · rw [filtersValidator_ok_of_wf rawFilters hwf] at hout
      injection hout with h
      exact h.symm
    · obtain ⟨msg, herr⟩ := filtersValidator_error_of_not_wf rawFilters hwf
      rw [herr] at hout
      exact absurd hout (by simp)
  · intro e herr
    constructor
    · by_cases hwf : ∀ f ∈ rawFilters, rawFilterWellFormed f
      · rw [filtersValidator_ok_of_wf rawFilters hwf] at herr
        exact absurd herr (by simp)
      · obtain ⟨msg, herr'⟩ := filtersValidator_error_of_not_wf rawFilters hwf
        rw [herr'] at herr
        injection herr with h
        exact ⟨msg, h.symm⟩
    · intro β ops mapperOf name amap tier collection hmap
      unfold entitySearchGenerator getUserAccessTier
      rw [hmap, except_bind_ok, herr]
      rfl

/-- Witness gadgets for C7: a well-formed membership filter whose
`values` list carries a duplicate, and a filter missing its operator. -/
def wGoodRaw : List (RawFilter Nat) :=
  [⟨some ("patientId".data), some ("in".data), none, some [2, 2, 3]⟩]

def wBadRaw : List (RawFilter Nat) :=
  [⟨some ("patientId".data), none, some 3, none⟩]

def wAccessMap : PyStr → Option Int := fun n => if n = "ds".data then some 1 else none

/-- Witness for C7: the good list validates (its duplicate-carrying
`values` list becoming a set), the bad list aborts the generator with
the bad-request error before the collection is consulted. -/
theorem filtersValidator_wellformed_iff_witness :
    (filtersValidator wGoodRaw).isOk = true ∧
    (∀ out, filtersValidator wGoodRaw = .ok out → out = wGoodRaw.map validatedShape) ∧
    entitySearchGenerator natPyOps (fun (_ : Unit) (_ : PyStr) => (none : Option Nat))
        ("ds".data) wAccessMap [()] wBadRaw =
      .error (.badRequest "Please specify field and/or operator in your filters.") :=
  ⟨(filtersValidator_wellformed_iff wGoodRaw).1.mpr (by decide),
   (filtersValidator_wellformed_iff wGoodRaw).2.1,
   ((filtersValidator_wellformed_iff wBadRaw).2.2 _ rfl).2 natPyOps
     (fun _ _ => none) ("ds".data) wAccessMap 1 [()] rfl⟩

/-- C9: for every dataset and access map, if the dataset's local name is
absent from the access map then `getUserAccessTier` raises the
not-authorized error, and the entity search generator raises it before
any entity of the collection is scanned against the filters — its
outcome is that error for every collection and filter list; if the name
is present, the mapped integer tier is returned. -/
theorem getUserAccessTier_gate [DecidableEq α] (ops : PyOps α)
    (mapperOf : β → PyStr → Option α) (datasetLocalId : PyStr)
    (access_map : PyStr → Option Int) :
    (access_map datasetLocalId = none →
      getUserAccessTier datasetLocalId access_map =
        .error (.notAuthorized "Not authorized to access this dataset") ∧
      ∀ (collection : List β) (rawFilters : List (RawFilter α)),
        entitySearchGenerator ops mapperOf datasetLocalId access_map collection rawFilters =
          .error (.notAuthorized "Not authorized to access this dataset")) ∧
    (∀ tier, access_map datasetLocalId = some tier →
      getUserAccessTier datasetLocalId access_map = .ok tier) := by
  constructor
  · intro habs
    have hg : getUserAccessTier datasetLocalId access_map =
        .error (.notAuthorized "Not authorized to access this dataset") := by
      unfold getUserAccessTier
      rw [habs]
    refine ⟨hg, ?_⟩
    intro collection rawFilters
    unfold entitySearchGenerator
    rw [hg]
    rfl
  · intro tier hpres
    unfold getUserAccessTier
    rw [hpres]

/-- Witness for C9: a one-dataset access map; the unknown dataset is
rejected with the collection untouched, the known one yields tier 1. -/
theorem getUserAccessTier_gate_witness :
    getUserAccessTier ("nope".data) wAccessMap =
      .error (.notAuthorized "Not authorized to access this dataset") ∧
    entitySearchGenerator natPyOps (fun (_ : Unit) (_ : PyStr) => (none : Option Nat))
        ("nope".data) wAccessMap [()] [] =
      .error (.notAuthorized "Not authorized to access this dataset") ∧
    getUserAccessTier ("ds".data) wAccessMap = .ok 1 :=
  ⟨((getUserAccessTier_gate natPyOps (fun (_ : Unit) _ => none) ("nope".data) wAccessMap).1
      rfl).1,
   ((getUserAccessTier_gate natPyOps (fun (_ : Unit) (_ : PyStr) => (none : Option Nat))
      ("nope".data) wAccessMap).1 rfl).2 [()] [],
   (getUserAccessTier_gate natPyOps (fun (_ : Unit) (_ : PyStr) => (none : Option Nat))
      ("ds".data) wAccessMap).2 1 rfl⟩

/-! ## JSON values

Serialized protocol responses are JSON strings; the advanced-query
post-processing (`resultsHandler`, `fieldHandler`, `aggregationHandler`)
works on their `json.loads` images.  We keep responses in structured
form: numbers are kept as their lexemes (no claim compares numbers
numerically), and object key order models Python's insertion-ordered
dicts. -/

inductive PyJson where
  | null
  | bool (b : Bool)
  | num (lexeme : PyStr)
  | str (s : PyStr)
  | arr (elems : List PyJson)
  | obj (fields : List (PyStr × PyJson))

/-- Python dict lookup on the assoc-list image of a JSON object (keys
are unique in a parsed dict, so first-match lookup is the dict's). -/
def objLookup (fields : List (PyStr × PyJson)) (k : PyStr) : Option PyJson :=
  match fields with
  | [] => none
  | (k', v) :: rest => if k' = k then some v else objLookup rest k

/-- Python truthiness of a decoded JSON value (`if not json.loads(results)`).
Numeric falsiness (`0`, `0.0`) is not exercised — the tested values are
JSON objects. -/
def pyFalsy : PyJson → Bool
  | .null => true
  | .bool b => !b
  | .num _ => false
  | .str s => s.isEmpty
  | .arr xs => xs.isEmpty
  | .obj fs => fs.isEmpty

/-! ## Aggregation (`Backend.aggregationHandler` / `countHelper`,
`backend.py`) -/

/-- Bucket keys of `field_value_counts[k]`: the hashable Python values a
row field can contribute after list canonicalization. -/
inductive PyKey where
  | null
  | bool (b : Bool)
  | num (lexeme : PyStr)
  | str (s : PyStr)
  deriving DecidableEq, Repr

/-- Python `list.sort()` on a list of strings: lexicographic ascending. -/
def pySortStrs (xs : List PyStr) : List PyStr :=
  xs.mergeSort (fun a b => decide (a ≤ b))

/-- The bucket key derived from a row value in `aggregationHandler`:
```python
if type(v) == list:
    v.sort()
    v = ','.join(v)
```
a list value is sorted and comma-joined (`TypeError` when an element is
not a string, as `','.join` raises); a dict value is unhashable and
raises `TypeError` at the `v not in field_value_counts[k]` test; any
other value keys the bucket directly. -/
def aggKey : PyJson → Except ApiError PyKey
  | .arr elems =>
    match elems.mapM (fun e => match e with | .str s => some s | _ => none) with
    | some strs => .ok (.str (List.intercalate (",".data) (pySortStrs strs)))
    | none => .error .pyTypeError
  | .obj _ => .error .pyTypeError
  | .str s => .ok (.str s)
  | .num lexeme => .ok (.num lexeme)
  | .bool b => .ok (.bool b)
  | .null => .ok .null

/-- `field_value_counts` : field name → (bucket key → count), kept in
insertion order like a Python dict. -/
abbrev CountsMap := List (PyStr × List (PyKey × Nat))

/-- `field_value_counts[k][v] = 1` / `+= 1`. -/
def bumpValue (counts : List (PyKey × Nat)) (k : PyKey) : List (PyKey × Nat) :=
  match counts with
  | [] => [(k, 1)]
  | (k', n) :: rest => if k' = k then (k', n + 1) :: rest else (k', n) :: bumpValue rest k

/-- `if k not in field_value_counts: field_value_counts[k] = {}` then bump. -/
def bumpField (counts : CountsMap) (f : PyStr) (k : PyKey) : CountsMap :=
  match counts with
  | [] => [(f, [(k, 1)])]
  | (f', vs) :: rest =>
    if f' = f then (f', bumpValue vs k) :: rest else (f', vs) :: bumpField rest f k

/-- The inner loop `for k, v in entry.items(): if k in field: ...` over
one row. -/
def countRow (field : List PyStr) (counts : CountsMap)
    (row : List (PyStr × PyJson)) : Except ApiError CountsMap :=
  row.foldlM
    (fun cs kv =>
      if kv.1 ∈ field then do
        let key ← aggKey kv.2
        pure (bumpField cs kv.1 key)
      else pure cs)
    counts

/-- The outer loop `for entry in json_results[table]`: each entry must
be a dict (`entry.items()` raises `AttributeError` otherwise). -/
def countRows (field : List PyStr) : List PyJson → CountsMap → Except ApiError CountsMap
  | [], cs => .ok cs
  | .obj row :: rest, cs => do
    let cs' ← countRow field cs row
    countRows field rest cs'
  | _ :: _, _ => .error .pyAttributeError

/-- How `json.dumps` renders the non-string bucket keys of the counts
dict. -/
def keyToStr : PyKey → PyStr
  | .str s => s
  | .num lexeme => lexeme
  | .bool true => "true".data
  | .bool false => "false".data
  | .null => "null".data

def countsToJson (cs : CountsMap) : PyJson :=
  .obj (cs.map (fun fv =>
    (fv.1, .obj (fv.2.map (fun kn => (keyToStr kn.1, PyJson.num (natToPyStr kn.2)))))))

/-- `Backend.countHelper`: wrap the counts map —
noised when a differential-privacy epsilon is configured (the noise
step is abstracted as `dpNoise`; the backend constructs with
`self._dpEpsilon = None`) — into `{table: response_list}`, an empty
list when no counts resulted (`if fv_counts:`). -/
def countHelper (dpNoise : Option (CountsMap → CountsMap)) (table : PyStr)
    (fv_counts : CountsMap) : List (PyStr × PyJson) :=
  let response_list : List PyJson :=
    if fv_counts.isEmpty then []
    else
      let noised := match dpNoise with
        | some noise => noise fv_counts
        | none => fv_counts
      [countsToJson noised]
  [(table, .arr response_list)]

/-- `Backend.aggregationHandler`: rewrite the
deprecated table name, count `(field, value)` occurrences over the
rows under the table key (`except KeyError: field_value_counts = {}` —
the only `KeyError` source is the initial `json_results[table]`
lookup), wrap through `countHelper`, then copy a `nextPageToken`
through verbatim. -/
def aggregationHandler (dpNoise : Option (CountsMap → CountsMap)) (table : PyStr)
    (results : PyJson) (field : List PyStr) : Except ApiError PyJson := do
  let table1 := if table = "variantsByGene".data then "variants".data else table
  let fv_counts ←
    match results with
    | .obj json_results =>
      match objLookup json_results table1 with
      | none => pure ([] : CountsMap)
      | some (.arr rows) => countRows field rows []
      | some (.str cs) => if cs.isEmpty then pure [] else .error .pyAttributeError
      | some (.obj kvs) => if kvs.isEmpty then pure [] else .error .pyAttributeError
      | some _ => .error .pyTypeError
    | _ => .error .pyTypeError
  let agg_results := countHelper dpNoise table1 fv_counts
  match results with
  | .obj json_results =>
    match objLookup json_results ("nextPageToken".data) with
    | some tok => pure (.obj (agg_results ++ [("nextPageToken".data, tok)]))
    | none => pure (.obj agg_results)
  | _ => pure (.obj agg_results)

/-- `Backend.fieldHandler`: keep only the requested
keys of each row (in requested-field order, as the dict comprehension
`{k: entry[k] for k in field if k in entry}` does), drop rows that
become empty, and copy a truthy `nextPageToken` through. -/
def fieldHandler (table : PyStr) (results : PyJson) (field : List PyStr) :
    Except ApiError PyJson := do
  match results with
  | .obj json_results => do
    let json_array ←
      match objLookup json_results table with
      | none => pure ([] : List PyJson)
      | some (.arr entries) => pure entries
      | some _ => .error .pyTypeError
    let filtered_results ←
      json_array.foldlM
        (fun acc entry =>
          match entry with
          | .obj row =>
            let field_obj := field.filterMap (fun k => (objLookup row k).map (fun v => (k, v)))
            pure (if field_obj.isEmpty then acc else acc ++ [PyJson.obj field_obj])
          | _ => .error .pyTypeError)
        ([] : List PyJson)
    let response_obj : List (PyStr × PyJson) :=
      if filtered_results.isEmpty then [] else [(table, .arr filtered_results)]
    match objLookup json_results ("nextPageToken".data) with
    | some tok =>
      if pyFalsy tok then pure (.obj response_obj)
      else pure (.obj (response_obj ++ [("nextPageToken".data, tok)]))
    | none => pure (.obj response_obj)
  | _ => .error .pyAttributeError

/-! ## `Backend.resultsHandler` (`backend.py`) -/

/-- One entry of the request's `results` list (only the keys this
handler reads; the variant discriminators `gene`/`start`/... are read
only by `variantsResultsValidator`, which `resultsHandler` never
calls). -/
structure ResultSpec where
  table : Option PyStr
  fields : Option (List PyStr)

/-- The keys of `self.endpointMapper` built in `Backend.__init__`
— the recognized searchable endpoint tables.  Note it
contains neither `variants` nor `variantsByGene`. -/
def endpointMapperKeys : List PyStr :=
  ["patients".data, "enrollments".data, "consents".data, "diagnoses".data,
   "samples".data, "treatments".data, "outcomes".data, "complications".data,
   "tumourboards".data, "slides".data, "studies".data, "labtests".data,
   "surgeries".data, "chemotherapies".data, "immunotherapies".data,
   "radiotherapies".data, "celltransplants".data]

/-- `Backend.resultsHandler`.  The final
single-endpoint search call `self.endpointMapper[table](requestStr, ...)`
(dataset + `patientId in patient_list` filter + optional page token) is
abstracted as `endpointCall table patient_list page_token`; the call
`self.variantsResultsHandler(...)` is abstracted as `variantsCall` — the
`Backend` class does not define such a method, and the branch is
unreachable anyway because the preceding guard requires
`table ∈ endpointMapperKeys`, which excludes `variants` and
`variantsByGene`. -/
def resultsHandler (dpNoise : Option (CountsMap → CountsMap))
    (endpointCall : PyStr → List PyStr → Option PyStr → PyJson)
    (variantsCall : PyJson) (results : List ResultSpec)
    (patient_list : List PyStr) (page_token : Option PyStr)
    (count : Bool) : Except ApiError PyJson := do
  let r0 ←
    match results with
    | [] => .error .pyIndexError
    | r0 :: _ => pure r0
  let table? := r0.table
  let field? := r0.fields
  if count ∧ (field? = none ∨ field? = some []) then
    .error (.missingFieldName "Fields list required for count query")
  else
    match table? with
    | none => .error (.missingFieldName "table")
    | some table =>
      if table ∉ endpointMapperKeys then
        .error (.missingFieldName "Invalid results table specified")
      else if patient_list = [] then
        let tableOut := if table = "variantsByGene".data then "variants".data else table
        pure (.obj [(tableOut, .arr [])])
      else do
        let res ←
          if table = "variantsByGene".data ∨ table = "variants".data then
            pure variantsCall
          else
            pure (endpointCall table patient_list page_token)
        let tableOut := if table = "variantsByGene".data then "variants".data else table
        let res ←
          if count then
            aggregationHandler dpNoise tableOut res (field?.getD [])
          else
            match field? with
            | some (f :: fs) => fieldHandler tableOut res (f :: fs)
            | _ => pure res
        pure (if pyFalsy res then .obj [(tableOut, .arr [])] else res)

theorem except_pure_bind {E A B : Type} (a : A) (f : A → Except E B) :
    (pure a >>= f : Except E B) = f a := rfl

/-- C5 (amended): for every advanced-query request whose logic evaluates
to the empty join-key set and whose `results[0].table` is one of the
recognized endpoint tables, `resultsHandler` returns the serialized
object `{table: []}` with no `nextPageToken` key, regardless of
`results[0].fields` (and of the count flag, provided the count/fields
guard passes).  A `"variantsByGene"` table never reaches this branch:
it is rejected by the endpoint-table guard (see the counterexample). -/
theorem resultsHandler_empty_short_circuit
    (dpNoise : Option (CountsMap → CountsMap))
    (endpointCall : PyStr → List PyStr → Option PyStr → PyJson)
    (variantsCall : PyJson) (table : PyStr) (fields : Option (List PyStr))
    (rest : List ResultSpec) (page_token : Option PyStr) (count : Bool)
    (htab : table ∈ endpointMapperKeys)
    (hcf : ¬(count = true ∧ (fields = none ∨ fields = some []))) :
    resultsHandler dpNoise endpointCall variantsCall
      (⟨some table, fields⟩ :: rest) [] page_token count =
      .ok (.obj [(table, .arr [])]) := by
  have htabne : table ≠ "variantsByGene".data := by
    intro h
    subst h
    revert htab
    decide
  unfold resultsHandler
  simp only [except_pure_bind]
  rw [if_neg hcf]
  rw [if_neg (not_not_intro htab)]
  rw [if_pos trivial]
  rw [if_neg htabne]
  rfl

/-- C5 counterexample: with `results[0].table = "variantsByGene"` and an
empty join-key set, `resultsHandler` does not return `{"variants": []}`:
`"variantsByGene"` is not a key of `endpointMapper`, so the table guard
raises `MissingFieldNameException("Invalid results table specified")`
before the empty-join short-circuit is reached. -/
theorem resultsHandler_variantsByGene_rejected :
    resultsHandler none (fun _ _ _ => PyJson.null) PyJson.null
      [⟨some ("variantsByGene".data), none⟩] [] none false =
      .error (.missingFieldName "Invalid results table specified") := rfl

/-- Witness for C5 (amended) at `table = "patients"` with a `fields`
projection present. -/
theorem resultsHandler_empty_short_circuit_witness :
    resultsHandler none (fun _ _ _ => PyJson.null) PyJson.null
      [⟨some ("patients".data), some ["name".data]⟩] [] none false =
      .ok (.obj [("patients".data, .arr [])]) :=
  resultsHandler_empty_short_circuit none (fun _ _ _ => PyJson.null) PyJson.null
    ("patients".data) (some ["name".data]) [] none false (by decide) (by simp)

/-! ## Counting characterization of the aggregation (for C8) -/

def countsGet (counts : List (PyKey × Nat)) (k : PyKey) : Nat :=
  match counts with
  | [] => 0
  | (k', n) :: rest => if k' = k then n else countsGet rest k

def fvGet (counts : CountsMap) (f : PyStr) (k : PyKey) : Nat :=
  match counts with
  | [] => 0
  | (f', vs) :: rest => if f' = f then countsGet vs k else fvGet rest f k

/-- The number of `(field, value)` occurrences one row contributes to
the bucket `(f, k)`: its entries whose key is `f` and whose value
canonicalizes to `k`. -/
def rowContrib (f : PyStr) (k : PyKey) (row : List (PyStr × PyJson)) : Nat :=
  row.countP (fun kv =>
    decide (kv.1 = f) &&
      match aggKey kv.2 with
      | .ok k' => decide (k' = k)
      | .error _ => false)

theorem countsGet_bumpValue (k k' : PyKey) :
    ∀ (vs : List (PyKey × Nat)),
      countsGet (bumpValue vs k) k' = countsGet vs k' + (if k' = k then 1 else 0) := by
  intro vs
  induction vs with
  | nil =>
    simp only [bumpValue, countsGet]
    by_cases h : k = k'
    · subst h; simp
    · rw [if_neg h, if_neg (fun hh => h hh.symm)]
  | cons kn rest ih =>
    obtain ⟨k0, n0⟩ := kn
    simp only [bumpValue]
    by_cases h0 : k0 = k
    · subst h0
      simp only [if_pos rfl, countsGet]
      by_cases h1 : k0 = k'
      · subst h1
        rw [if_pos rfl, if_pos rfl, if_pos rfl]
      · rw [if_neg h1, if_neg h1, if_neg (fun hh => h1 hh.symm)]
        omega
    · rw [if_neg h0]
      simp only [countsGet]
      by_cases h1 : k0 = k'
      · rw [if_pos h1, if_pos h1, if_neg (fun hh : k' = k => h0 (h1.trans hh))]
        omega
      · rw [if_neg h1, if_neg h1, ih]

theorem fvGet_bumpField (f f' : PyStr) (k k' : PyKey) :
    ∀ (cs : CountsMap),
      fvGet (bumpField cs f k) f' k' =
        fvGet cs f' k' + (if f' = f ∧ k' = k then 1 else 0) := by
  intro cs
  induction cs with
  | nil =>
    simp only [bumpField, fvGet, countsGet]
    by_cases hf : f = f'
    · subst hf
      by_cases hk : k = k'
      · subst hk
        rw [if_pos rfl, if_pos rfl, if_pos ⟨rfl, rfl⟩]
      · rw [if_pos rfl, if_neg hk, if_neg (fun hh => hk hh.2.symm)]
    · rw [if_neg hf, if_neg (fun hh => hf hh.1.symm)]
  | cons fv rest ih =>
    obtain ⟨f0, vs0⟩ := fv
    simp only [bumpField]
    by_cases h0 : f0 = f
    · subst h0
      simp only [if_pos rfl, fvGet]
      by_cases h1 : f0 = f'
      · subst h1
        rw [if_pos rfl, if_pos rfl, countsGet_bumpValue]
        by_cases hk : k' = k
        · rw [if_pos hk, if_pos ⟨rfl, hk⟩]
        · rw [if_neg hk, if_neg (fun hh => hk hh.2)]
      · rw [if_neg h1, if_neg h1, if_neg (fun hh => h1 hh.1.symm)]
        omega
    · rw [if_neg h0]
      simp only [fvGet]
      by_cases h1 : f0 = f'
      · rw [if_pos h1, if_pos h1, if_neg (fun hh : f' = f ∧ k' = k => h0 (h1.trans hh.1))]
        omega
      · rw [if_neg h1, if_neg h1, ih]

theorem countRow_spec (field : List PyStr) :
    ∀ (row : List (PyStr × PyJson)) (cs : CountsMap),
      (∀ kv ∈ row, kv.1 ∈ field → ∃ key, aggKey kv.2 = .ok key) →
      ∃ cs', countRow field cs row = .ok cs' ∧
        ∀ f ∈ field, ∀ k, fvGet cs' f k = fvGet cs f k + rowContrib f k row := by
  intro row
  induction row with
  | nil =>
    intro cs _
    exact ⟨cs, rfl, by intro f _ k; simp [rowContrib]⟩
  | cons kv rest ih =>
    intro cs hwf
    by_cases hmem : kv.1 ∈ field
    · obtain ⟨key, hkey⟩ := hwf kv (by simp) hmem
      obtain ⟨cs', hok, hspec⟩ :=
        ih (bumpField cs kv.1 key) (fun kv' h' hm => hwf kv' (by simp [h']) hm)
      refine ⟨cs', ?_, ?_⟩
      · unfold countRow at hok ⊢
        rw [List.foldlM_cons, if_pos hmem, hkey, except_bind_ok, except_pure_bind]
        exact hok
      · intro f hfi k
        rw [hspec f hfi k, fvGet_bumpField]
        simp only [rowContrib, List.countP_cons, hkey]
        have hiff : (f = kv.1 ∧ k = key) ↔
            ((decide (kv.1 = f) && decide (key = k)) = true) := by
          rw [Bool.and_eq_true, decide_eq_true_eq, decide_eq_true_eq]
          exact ⟨fun hh => ⟨hh.1.symm, hh.2.symm⟩, fun hh => ⟨hh.1.symm, hh.2.symm⟩⟩
        rw [if_congr hiff rfl rfl]
        omega
    · obtain ⟨cs', hok, hspec⟩ := ih cs (fun kv' h' hm => hwf kv' (by simp [h']) hm)
      refine ⟨cs', ?_, ?_⟩
      · unfold countRow at hok ⊢
        rw [List.foldlM_cons, if_neg hmem, except_pure_bind]
        exact hok
      · intro f hfi k
        rw [hspec f hfi k]
        simp only [rowContrib, List.countP_cons]
        have h1 : decide (kv.1 = f) = false := by
          simp only [decide_eq_false_iff_not]
          exact fun hh => hmem (hh ▸ hfi)
        rw [h1, Bool.false_and, if_neg (by simp : ¬((false : Bool) = true))]
        omega

theorem countRows_spec (field : List PyStr) :
    ∀ (rows : List (List (PyStr × PyJson))) (cs : CountsMap),
      (∀ row ∈ rows, ∀ kv ∈ row, kv.1 ∈ field → ∃ key, aggKey kv.2 = .ok key) →
      ∃ cs', countRows field (rows.map PyJson.obj) cs = .ok cs' ∧
        ∀ f ∈ field, ∀ k,
          fvGet cs' f k = fvGet cs f k + (rows.map (rowContrib f k)).sum := by
  intro rows
  induction rows with
  | nil => intro cs _; exact ⟨cs, rfl, by simp⟩
  | cons row rest ih =>
    intro cs hwf
    obtain ⟨cs1, hok1, hspec1⟩ := countRow_spec field row cs (hwf row (by simp))
    obtain ⟨cs', hok', hspec'⟩ := ih cs1 (fun r hr => hwf r (by simp [hr]))
    refine ⟨cs', ?_, ?_⟩
    · simp only [List.map_cons, countRows]
      rw [hok1, except_bind_ok]
      exact hok'
    · intro f hfi k
      rw [hspec' f hfi k, hspec1 f hfi k]
      simp only [List.map_cons, List.sum_cons]
      omega

theorem mapM_str_extract : ∀ (xs : List PyStr),
    (xs.map PyJson.str).mapM
      (fun e => match e with | PyJson.str s => some s | _ => none) = some xs := by
  intro xs
  induction xs with
  | nil => rfl
  | cons x rest ih =>
    rw [List.map_cons, List.mapM_cons, ih]
    rfl

theorem pySortStrs_perm_eq {xs ys : List PyStr} (h : xs.Perm ys) :
    pySortStrs xs = pySortStrs ys := by
  have htrans : ∀ (a b c : PyStr),
      decide (a ≤ b) = true → decide (b ≤ c) = true → decide (a ≤ c) = true := by
    intro a b c hab hbc
    simp only [decide_eq_true_eq] at *
    exact le_trans hab hbc
  have htotal : ∀ (a b : PyStr), (decide (a ≤ b) || decide (b ≤ a)) = true := by
    intro a b
    simp only [Bool.or_eq_true, decide_eq_true_eq]
    exact le_total a b
  have h1 := List.sorted_mergeSort htrans htotal xs
  have h2 := List.sorted_mergeSort htrans htotal ys
  have hperm : (xs.mergeSort (fun a b => decide (a ≤ b))).Perm
      (ys.mergeSort (fun a b => decide (a ≤ b))) :=
    ((List.mergeSort_perm xs _).trans h).trans (List.mergeSort_perm ys _).symm
  haveI : IsAntisymm PyStr (fun a b => decide (a ≤ b) = true) :=
    ⟨fun a b ha hb => le_antisymm (by simpa using ha) (by simpa using hb)⟩
  exact List.eq_of_perm_of_sorted hperm h1 h2

theorem aggKey_perm (xs ys : List PyStr) (h : xs.Perm ys) :
    aggKey (.arr (xs.map PyJson.str)) = aggKey (.arr (ys.map PyJson.str)) := by
  simp only [aggKey, mapM_str_extract]
  rw [pySortStrs_perm_eq h]

/-- C8: `Backend.aggregationHandler` counts each `(field, value)`
occurrence — for every bucket `(f, k)` the resulting count is the total
number of row entries carrying field `f` whose value canonicalizes to
key `k` — with list-typed values sorted and comma-joined into one
composite key, so two rows holding the same list values in different
orders (e.g. `["b","a"]` and `["a","b"]`) increment the same bucket;
and when no counts result (no rows, or no requested field occurs on any
row) the output maps the table to an empty list rather than omitting
the key. -/
theorem aggregation_counts_buckets_and_empty
    (field : List PyStr) (rows : List (List (PyStr × PyJson)))
    (hwf : ∀ row ∈ rows, ∀ kv ∈ row, kv.1 ∈ field → ∃ key, aggKey kv.2 = .ok key)
    (f : PyStr) (hf : f ∈ field) (k : PyKey)
    (xs ys : List PyStr) (hperm : xs.Perm ys)
    (dpNoise : Option (CountsMap → CountsMap)) (table : PyStr)
    (htab : table ≠ "variantsByGene".data) (htok : table ≠ "nextPageToken".data) :
    (∀ counts, countRows field (rows.map PyJson.obj) [] = .ok counts →
      fvGet counts f k = (rows.map (rowContrib f k)).sum) ∧
    aggKey (.arr (xs.map PyJson.str)) = aggKey (.arr (ys.map PyJson.str)) ∧
    (countRows field (rows.map PyJson.obj) [] = .ok [] →
      aggregationHandler dpNoise table (.obj [(table, .arr (rows.map PyJson.obj))]) field =
        .ok (.obj [(table, .arr [])])) := by
  refine ⟨?_, aggKey_perm xs ys hperm, ?_⟩
  · intro counts hcount
    obtain ⟨cs', hok, hspec⟩ := countRows_spec field rows [] hwf
    rw [hok] at hcount
    injection hcount with hcs
    subst hcs
    have := hspec f hf k
    simpa [fvGet] using this
  · intro hempty
    unfold aggregationHandler
    rw [if_neg htab]
    simp only [objLookup]
    rw [if_pos trivial, if_neg htok]
    dsimp only
    rw [hempty, except_bind_ok]
    rfl

/-- Witness for C8: the permuted list values `["b","a"]` / `["a","b"]`
key the same bucket, and an empty row set aggregates to
`{"patients": []}`. -/
theorem aggregation_counts_buckets_and_empty_witness :
    aggKey (.arr (["b".data, "a".data].map PyJson.str)) =
      aggKey (.arr (["a".data, "b".data].map PyJson.str)) ∧
    aggregationHandler none ("patients".data)
        (.obj [("patients".data, .arr (([] : List (List (PyStr × PyJson))).map PyJson.obj))])
        ["f".data] =
      .ok (.obj [("patients".data, .arr [])]) :=
  ⟨(aggregation_counts_buckets_and_empty ["f".data] []
      (fun row hrow => absurd hrow (List.not_mem_nil row)) ("f".data) (by simp)
      PyKey.null ["b".data, "a".data] ["a".data, "b".data] (by decide) none
      ("patients".data) (by decide) (by decide)).2.1,
   (aggregation_counts_buckets_and_empty ["f".data] []
      (fun row hrow => absurd hrow (List.not_mem_nil row)) ("f".data) (by simp)
      PyKey.null ["b".data, "a".data] ["a".data, "b".data] (by decide) none
      ("patients".data) (by decide) (by decide)).2.2 rfl⟩

/-! ## Base64 (for `CompoundId.obfuscate` / `deobfuscate`)

`CompoundId.obfuscate` (`datamodel/__init__.py`) is
`base64.urlsafe_b64encode(idStr.encode('utf-8')).replace(b'=', b'')`;
`deobfuscate` is
`base64.urlsafe_b64decode(data + ('A=='[(len(data) - 1) % 4:]))`
followed by `.decode('utf-8')`.  The standard-library base64 codec is
modelled here: the encoder is the standard padded base64 over the
URL-safe alphabet; the decoder follows CPython's non-strict
`binascii.a2b_base64` loop (characters outside the alphabet are
skipped, `=` at quad position ≥ 2 with enough accumulated padding ends
the decode, and a leftover quad position raises `binascii.Error`). -/

def b64Alphabet : PyStr :=
  "ABCDEFGHIJKLMNOPQRSTUVWXYZabcdefghijklmnopqrstuvwxyz0123456789-_".data

def b64Char (i : Nat) : Char := b64Alphabet.getD i 'A'

/-- `urlsafe_b64decode` translates `-_` to `+/` and then decodes with
the standard table, so both alphabets are accepted. -/
def b64Index? (c : Char) : Option Nat :=
  if c = '+' then some 62
  else if c = '/' then some 63
  else List.indexOf? c b64Alphabet

/-- Modelled from the spec: the CPython `binascii.a2b_base64` loop
(non-strict mode), state `(quadPos, leftchar, pads, out)`. -/
def a2bLoop : List Char → Nat → Nat → Nat → List Nat → Except Unit (List Nat)
  | [], quadPos, _, _, acc =>
    if quadPos = 0 then .ok acc else .error ()
  | c :: rest, quadPos, leftchar, pads, acc =>
    if c = '=' then
      if 2 ≤ quadPos ∧ 4 ≤ quadPos + (pads + 1) then .ok acc
      else a2bLoop rest quadPos leftchar (pads + 1) acc
    else
      match b64Index? c with
      | none => a2bLoop rest quadPos leftchar pads acc
      | some d =>
        match quadPos with
        | 0 => a2bLoop rest 1 d 0 acc
        | 1 => a2bLoop rest 2 (d % 16) 0 (acc ++ [leftchar * 4 + d / 16])
        | 2 => a2bLoop rest 3 (d % 4) 0 (acc ++ [leftchar * 16 + d / 4])
        | _ => a2bLoop rest 0 0 0 (acc ++ [leftchar * 64 + d])

def a2bBase64 (s : List Char) : Except Unit (List Nat) := a2bLoop s 0 0 0 []

/-- Modelled from the spec: Python `base64.urlsafe_b64encode` — the
standard padded encoding over the URL-safe alphabet. -/
def b64EncodeBytes : List Nat → List Char
  | [] => []
  | [b1] => [b64Char (b1 / 4), b64Char (b1 % 4 * 16), '=', '=']
  | [b1, b2] =>
    [b64Char (b1 / 4), b64Char (b1 % 4 * 16 + b2 / 16), b64Char (b2 % 16 * 4), '=']
  | b1 :: b2 :: b3 :: rest =>
    b64Char (b1 / 4) :: b64Char (b1 % 4 * 16 + b2 / 16) ::
      b64Char (b2 % 16 * 4 + b3 / 64) :: b64Char (b3 % 64) :: b64EncodeBytes rest

/-- `'A=='[(len(data) - 1) % 4:]` from `CompoundId.deobfuscate`:
Python's negative modulo makes the slice start `3` (empty suffix) for
`len(data) = 0`; expressed via `len % 4` this is the mapping below. -/
def padSuffix (n : Nat) : List Char :=
  match n % 4 with
  | 1 => ['A', '=', '=']
  | 2 => ['=', '=']
  | 3 => ['=']
  | _ => []

/-- The padding the stripped encoding of `bytes` is missing, in terms of
`bytes.length`. -/
def padTail (n : Nat) : List Char :=
  match n % 3 with
  | 1 => ['=', '=']
  | 2 => ['=']
  | _ => []

theorem b64Index?_b64Char : ∀ i < 64, b64Index? (b64Char i) = some i := by decide

theorem b64Char_ne_pad : ∀ i < 64, ¬ b64Char i = '=' := by decide

theorem a2bLoop_cons_data (c : Char) (i : Nat) (hne : ¬ c = '=')
    (hi : b64Index? c = some i) (rest : List Char) (quadPos leftchar pads : Nat)
    (acc : List Nat) :
    a2bLoop (c :: rest) quadPos leftchar pads acc =
      match quadPos with
      | 0 => a2bLoop rest 1 i 0 acc
      | 1 => a2bLoop rest 2 (i % 16) 0 (acc ++ [leftchar * 4 + i / 16])
      | 2 => a2bLoop rest 3 (i % 4) 0 (acc ++ [leftchar * 16 + i / 4])
      | _ => a2bLoop rest 0 0 0 (acc ++ [leftchar * 64 + i]) := by
  simp only [a2bLoop, if_neg hne, hi]

theorem a2bLoop_step0 (c : Char) (i : Nat) (hne : ¬ c = '=') (hi : b64Index? c = some i)
    (rest : List Char) (leftchar pads : Nat) (acc : List Nat) :
    a2bLoop (c :: rest) 0 leftchar pads acc = a2bLoop rest 1 i 0 acc := by
  simp only [a2bLoop, if_neg hne, hi]

theorem a2bLoop_step1 (c : Char) (i : Nat) (hne : ¬ c = '=') (hi : b64Index? c = some i)
    (rest : List Char) (leftchar pads : Nat) (acc : List Nat) :
    a2bLoop (c :: rest) 1 leftchar pads acc =
      a2bLoop rest 2 (i % 16) 0 (acc ++ [leftchar * 4 + i / 16]) := by
  simp only [a2bLoop, if_neg hne, hi]

theorem a2bLoop_step2 (c : Char) (i : Nat) (hne : ¬ c = '=') (hi : b64Index? c = some i)
    (rest : List Char) (leftchar pads : Nat) (acc : List Nat) :
    a2bLoop (c :: rest) 2 leftchar pads acc =
      a2bLoop rest 3 (i % 4) 0 (acc ++ [leftchar * 16 + i / 4]) := by
  simp only [a2bLoop, if_neg hne, hi]

theorem a2bLoop_step3 (c : Char) (i : Nat) (hne : ¬ c = '=') (hi : b64Index? c = some i)
    (rest : List Char) (leftchar pads : Nat) (acc : List Nat) :
    a2bLoop (c :: rest) 3 leftchar pads acc =
      a2bLoop rest 0 0 0 (acc ++ [leftchar * 64 + i]) := by
  simp only [a2bLoop, if_neg hne, hi]

theorem a2bLoop_pad (rest : List Char) (quadPos leftchar pads : Nat) (acc : List Nat) :
    a2bLoop ('=' :: rest) quadPos leftchar pads acc =
      if 2 ≤ quadPos ∧ 4 ≤ quadPos + (pads + 1) then .ok acc
      else a2bLoop rest quadPos leftchar (pads + 1) acc := by
  simp only [a2bLoop]
  rw [if_pos trivial]

theorem filter_ne_pad_cons (c : Char) (hne : ¬ c = '=') (l : List Char) :
    (c :: l).filter (fun c => c ≠ '=') = c :: l.filter (fun c => c ≠ '=') := by
  simp [List.filter_cons, hne]

theorem filter_pad_cons (l : List Char) :
    ('=' :: l).filter (fun c => c ≠ '=') = l.filter (fun c => c ≠ '=') := by
  simp [List.filter_cons]

theorem a2bLoop_encode :
    ∀ (bytes : List Nat), (∀ b ∈ bytes, b < 256) → ∀ acc,
      a2bLoop ((b64EncodeBytes bytes).filter (fun c => c ≠ '=') ++ padTail bytes.length)
        0 0 0 acc = .ok (acc ++ bytes) := by
  intro bytes
  induction bytes using b64EncodeBytes.induct with
  | case1 =>
    intro _ acc
    simp [b64EncodeBytes, padTail, a2bLoop]
  | case2 b1 =>
    intro hb acc
    have h1 : b1 < 256 := hb b1 (by simp)
    simp only [b64EncodeBytes, List.length_singleton]
    rw [filter_ne_pad_cons _ (b64Char_ne_pad _ (by omega)),
      filter_ne_pad_cons _ (b64Char_ne_pad _ (by omega)),
      filter_pad_cons, filter_pad_cons, List.filter_nil]
    show a2bLoop
      (b64Char (b1 / 4) :: b64Char (b1 % 4 * 16) :: padTail 1) 0 0 0 acc = _
    rw [show padTail 1 = ['=', '='] from rfl]
    rw [a2bLoop_step0 _ _ (b64Char_ne_pad _ (by omega)) (b64Index?_b64Char _ (by omega)),
      a2bLoop_step1 _ _ (b64Char_ne_pad _ (by omega)) (b64Index?_b64Char _ (by omega)),
      a2bLoop_pad, if_neg (by omega), a2bLoop_pad, if_pos (by omega)]
    rw [show b1 / 4 * 4 + b1 % 4 * 16 / 16 = b1 from by omega]
  | case3 b1 b2 =>
    intro hb acc
    have h1 : b1 < 256 := hb b1 (by simp)
    have h2 : b2 < 256 := hb b2 (by simp)
    simp only [b64EncodeBytes, List.length_cons, List.length_singleton]
    rw [filter_ne_pad_cons _ (b64Char_ne_pad _ (by omega)),
      filter_ne_pad_cons _ (b64Char_ne_pad _ (by omega)),
      filter_ne_pad_cons _ (b64Char_ne_pad _ (by omega)),
      filter_pad_cons, List.filter_nil]
    rw [show padTail (([] : List Nat).length + 1 + 1) = ['='] from rfl]
    simp only [List.cons_append, List.nil_append]
    rw [a2bLoop_step0 _ _ (b64Char_ne_pad _ (by omega)) (b64Index?_b64Char _ (by omega)),
      a2bLoop_step1 _ _ (b64Char_ne_pad _ (by omega)) (b64Index?_b64Char _ (by omega)),
      a2bLoop_step2 _ _ (b64Char_ne_pad _ (by omega)) (b64Index?_b64Char _ (by omega)),
      a2bLoop_pad, if_pos (by omega)]
    rw [show b1 / 4 * 4 + (b1 % 4 * 16 + b2 / 16) / 16 = b1 from by omega]
    rw [show (b1 % 4 * 16 + b2 / 16) % 16 * 16 + b2 % 16 * 4 / 4 = b2 from by omega]
    rw [List.append_assoc]
    rfl
  | case4 b1 b2 b3 rest ih =>
    intro hb acc
    have h1 : b1 < 256 := hb b1 (by simp)
    have h2 : b2 < 256 := hb b2 (by simp)
    have h3 : b3 < 256 := hb b3 (by simp)
    have hbrest : ∀ b ∈ rest, b < 256 := fun b hbr => hb b (by simp [hbr])
    simp only [b64EncodeBytes, List.length_cons]
    rw [filter_ne_pad_cons _ (b64Char_ne_pad _ (by omega)),
      filter_ne_pad_cons _ (b64Char_ne_pad _ (by omega)),
      filter_ne_pad_cons _ (b64Char_ne_pad _ (by omega)),
      filter_ne_pad_cons _ (b64Char_ne_pad _ (by omega))]
    have hpt : padTail (rest.length + 1 + 1 + 1) = padTail rest.length := by
      unfold padTail
      rw [show (rest.length + 1 + 1 + 1) % 3 = rest.length % 3 from by omega]
    rw [hpt]
    rw [show (b64Char (b1 / 4) :: b64Char (b1 % 4 * 16 + b2 / 16) ::
        b64Char (b2 % 16 * 4 + b3 / 64) :: b64Char (b3 % 64) ::
        (b64EncodeBytes rest).filter (fun c => c ≠ '=')) ++ padTail rest.length =
      b64Char (b1 / 4) :: b64Char (b1 % 4 * 16 + b2 / 16) ::
        b64Char (b2 % 16 * 4 + b3 / 64) :: b64Char (b3 % 64) ::
        ((b64EncodeBytes rest).filter (fun c => c ≠ '=') ++ padTail rest.length) from by
      simp]
    rw [a2bLoop_step0 _ _ (b64Char_ne_pad _ (by omega)) (b64Index?_b64Char _ (by omega)),
      a2bLoop_step1 _ _ (b64Char_ne_pad _ (by omega)) (b64Index?_b64Char _ (by omega)),
      a2bLoop_step2 _ _ (b64Char_ne_pad _ (by omega)) (b64Index?_b64Char _ (by omega)),
      a2bLoop_step3 _ _ (b64Char_ne_pad _ (by omega)) (b64Index?_b64Char _ (by omega))]
    rw [show b1 / 4 * 4 + (b1 % 4 * 16 + b2 / 16) / 16 = b1 from by omega]
    rw [show (b1 % 4 * 16 + b2 / 16) % 16 * 16 + (b2 % 16 * 4 + b3 / 64) / 4 = b2 from by
      omega]
    rw [show (b2 % 16 * 4 + b3 / 64) % 4 * 64 + b3 % 64 = b3 from by omega]
    rw [ih hbrest]
    simp

theorem padSuffix_stripped :
    ∀ (bytes : List Nat), (∀ b ∈ bytes, b < 256) →
      padSuffix (((b64EncodeBytes bytes).filter (fun c => c ≠ '=')).length) =
        padTail bytes.length := by
  intro bytes
  induction bytes using b64EncodeBytes.induct with
  | case1 => intro _; rfl
  | case2 b1 =>
    intro hb
    have h1 : b1 < 256 := hb b1 (by simp)
    simp only [b64EncodeBytes]
    rw [filter_ne_pad_cons _ (b64Char_ne_pad _ (by omega)),
      filter_ne_pad_cons _ (b64Char_ne_pad _ (by omega)),
      filter_pad_cons, filter_pad_cons, List.filter_nil]
    rfl
  | case3 b1 b2 =>
    intro hb
    have h1 : b1 < 256 := hb b1 (by simp)
    have h2 : b2 < 256 := hb b2 (by simp)
    simp only [b64EncodeBytes]
    rw [filter_ne_pad_cons _ (b64Char_ne_pad _ (by omega)),
      filter_ne_pad_cons _ (b64Char_ne_pad _ (by omega)),
      filter_ne_pad_cons _ (b64Char_ne_pad _ (by omega)),
      filter_pad_cons, List.filter_nil]
    rfl
  | case4 b1 b2 b3 rest ih =>
    intro hb
    have h1 : b1 < 256 := hb b1 (by simp)
    have h2 : b2 < 256 := hb b2 (by simp)
    have h3 : b3 < 256 := hb b3 (by simp)
    have hbrest : ∀ b ∈ rest, b < 256 := fun b hbr => hb b (by simp [hbr])
    simp only [b64EncodeBytes, List.length_cons]
    rw [filter_ne_pad_cons _ (b64Char_ne_pad _ (by omega)),
      filter_ne_pad_cons _ (b64Char_ne_pad _ (by omega)),
      filter_ne_pad_cons _ (b64Char_ne_pad _ (by omega)),
      filter_ne_pad_cons _ (b64Char_ne_pad _ (by omega))]
    simp only [List.length_cons]
    have hps : padSuffix
        (((b64EncodeBytes rest).filter (fun c => c ≠ '=')).length + 1 + 1 + 1 + 1) =
        padSuffix (((b64EncodeBytes rest).filter (fun c => c ≠ '=')).length) := by
      unfold padSuffix
      rw [show (((b64EncodeBytes rest).filter (fun c => c ≠ '=')).length + 1 + 1 + 1 + 1) % 4
        = ((b64EncodeBytes rest).filter (fun c => c ≠ '=')).length % 4 from by omega]
    have hpt : padTail (rest.length + 1 + 1 + 1) = padTail rest.length := by
      unfold padTail
      rw [show (rest.length + 1 + 1 + 1) % 3 = rest.length % 3 from by omega]
    rw [hps, hpt, ih hbrest]

/-! ## UTF-8 (for `CompoundId.obfuscate` / `deobfuscate`) -/

/-- Modelled from the spec: UTF-8 encoding of one scalar value
(`str.encode('utf-8')`). -/
def utf8EncodeChar (c : Char) : List Nat :=
  let n := c.toNat
  if n < 128 then [n]
  else if n < 2048 then [192 + n / 64, 128 + n % 64]
  else if n < 65536 then [224 + n / 4096, 128 + n / 64 % 64, 128 + n % 64]
  else [240 + n / 262144, 128 + n / 4096 % 64, 128 + n / 64 % 64, 128 + n % 64]

def utf8Encode (s : PyStr) : List Nat := s.flatMap utf8EncodeChar

/-- Modelled from the spec: Python's strict UTF-8 decoder
(`bytes.decode('utf-8')`): rejects truncated sequences, bad
continuation bytes, overlong forms and surrogates
(`UnicodeDecodeError` is the `.error` case).  The fuel argument only
drives the recursion; every decoded scalar consumes at least one byte,
so `fuel = length` (as `utf8Decode` passes) never runs out. -/
def utf8DecodeFuel : Nat → List Nat → Except Unit PyStr
  | _, [] => .ok []
  | 0, _ :: _ => .error ()
  | fuel + 1, b :: rest =>
    if b < 128 then
      match utf8DecodeFuel fuel rest with
      | .ok s => .ok (Char.ofNat b :: s)
      | .error e => .error e
    else if 194 ≤ b ∧ b ≤ 223 then
      match rest with
      | b2 :: rest2 =>
        if 128 ≤ b2 ∧ b2 ≤ 191 then
          match utf8DecodeFuel fuel rest2 with
          | .ok s => .ok (Char.ofNat ((b - 192) * 64 + (b2 - 128)) :: s)
          | .error e => .error e
        else .error ()
      | [] => .error ()
    else if 224 ≤ b ∧ b ≤ 239 then
      match rest with
      | b2 :: b3 :: rest3 =>
        if ((b = 224 ∧ 160 ≤ b2 ∧ b2 ≤ 191) ∨
            (b = 237 ∧ 128 ≤ b2 ∧ b2 ≤ 159) ∨
            (¬ b = 224 ∧ ¬ b = 237 ∧ 128 ≤ b2 ∧ b2 ≤ 191)) ∧
            (128 ≤ b3 ∧ b3 ≤ 191) then
          match utf8DecodeFuel fuel rest3 with
          | .ok s =>
            .ok (Char.ofNat ((b - 224) * 4096 + (b2 - 128) * 64 + (b3 - 128)) :: s)
          | .error e => .error e
        else .error ()
      | _ => .error ()
    else if 240 ≤ b ∧ b ≤ 244 then
      match rest with
      | b2 :: b3 :: b4 :: rest4 =>
        if ((b = 240 ∧ 144 ≤ b2 ∧ b2 ≤ 191) ∨
            (b = 244 ∧ 128 ≤ b2 ∧ b2 ≤ 143) ∨
            (¬ b = 240 ∧ ¬ b = 244 ∧ 128 ≤ b2 ∧ b2 ≤ 191)) ∧
            (128 ≤ b3 ∧ b3 ≤ 191) ∧ (128 ≤ b4 ∧ b4 ≤ 191) then
          match utf8DecodeFuel fuel rest4 with
          | .ok s =>
            .ok (Char.ofNat ((b - 240) * 262144 + (b2 - 128) * 4096 +
              (b3 - 128) * 64 + (b4 - 128)) :: s)
          | .error e => .error e
        else .error ()
      | _ => .error ()
    else .error ()

def utf8Decode (l : List Nat) : Except Unit PyStr := utf8DecodeFuel l.length l

theorem charValid (c : Char) :
    c.toNat < 55296 ∨ (57343 < c.toNat ∧ c.toNat < 1114112) := by
  have h : c.val.isValidChar := c.valid
  unfold UInt32.isValidChar at h
  unfold Nat.isValidChar at h
  exact h

theorem utf8EncodeChar_lt256 (c : Char) : ∀ b ∈ utf8EncodeChar c, b < 256 := by
  have hv := charValid c
  intro b hb
  unfold utf8EncodeChar at hb
  dsimp only at hb
  split_ifs at hb with h1 h2 h3 <;>
    simp only [List.mem_cons, List.mem_singleton, List.not_mem_nil, or_false] at hb
  · omega
  · rcases hb with rfl | rfl <;> omega
  · rcases hb with rfl | rfl | rfl <;> omega
  · rcases hb with rfl | rfl | rfl | rfl <;> omega

theorem utf8Encode_lt256 (s : PyStr) : ∀ b ∈ utf8Encode s, b < 256 := by
  intro b hb
  unfold utf8Encode at hb
  rw [List.mem_flatMap] at hb
  obtain ⟨c, _, hbc⟩ := hb
  exact utf8EncodeChar_lt256 c b hbc


theorem utf8DecodeFuel_encodeChar (c : Char) (fuel : Nat) (tail : List Nat) :
    utf8DecodeFuel (fuel + 1) (utf8EncodeChar c ++ tail) =
      match utf8DecodeFuel fuel tail with
      | .ok s => .ok (c :: s)
      | .error e => .error e := by
  have hv := charValid c
  unfold utf8EncodeChar
  dsimp only
  by_cases h1 : c.toNat < 128
  · rw [if_pos h1]
    simp only [List.append_eq, List.singleton_append, List.nil_append, utf8DecodeFuel]
    rw [if_pos h1]
    cases htail : utf8DecodeFuel fuel tail with
    | ok s =>
      try dsimp only
      rw [Char.ofNat_toNat]
    | error e => try dsimp only
  · rw [if_neg h1]
    by_cases h2 : c.toNat < 2048
    · rw [if_pos h2]
      simp only [List.append_eq, List.cons_append, List.nil_append, utf8DecodeFuel]
      rw [if_neg (by omega), if_pos (by omega)]
      try dsimp only
      rw [if_pos (by omega)]
      cases htail : utf8DecodeFuel fuel tail with
      | ok s =>
        try dsimp only
        rw [show (192 + c.toNat / 64 - 192) * 64 + (128 + c.toNat % 64 - 128) = c.toNat
          from by omega]
        rw [Char.ofNat_toNat]
      | error e => try dsimp only
    · rw [if_neg h2]
      by_cases h3 : c.toNat < 65536
      · rw [if_pos h3]
        simp only [List.append_eq, List.cons_append, List.nil_append, utf8DecodeFuel]
        rw [if_neg (by omega), if_neg (by omega), if_pos (by omega)]
        try dsimp only
        rw [if_pos (by omega)]
        cases htail : utf8DecodeFuel fuel tail with
        | ok s =>
          try dsimp only
          rw [show (224 + c.toNat / 4096 - 224) * 4096 +
              (128 + c.toNat / 64 % 64 - 128) * 64 +
              (128 + c.toNat % 64 - 128) = c.toNat from by omega]
          rw [Char.ofNat_toNat]
        | error e => try dsimp only
      · rw [if_neg h3]
        simp only [List.append_eq, List.cons_append, List.nil_append, utf8DecodeFuel]
        rw [if_neg (by omega), if_neg (by omega), if_neg (by omega), if_pos (by omega)]
        try dsimp only
        rw [if_pos (by omega)]
        cases htail : utf8DecodeFuel fuel tail with
        | ok s =>
          try dsimp only
          rw [show (240 + c.toNat / 262144 - 240) * 262144 +
              (128 + c.toNat / 4096 % 64 - 128) * 4096 +
              (128 + c.toNat / 64 % 64 - 128) * 64 + (128 + c.toNat % 64 - 128) = c.toNat
            from by omega]
          rw [Char.ofNat_toNat]
        | error e => try dsimp only

theorem utf8DecodeFuel_encode (s : PyStr) :
    ∀ fuel, s.length ≤ fuel → utf8DecodeFuel fuel (utf8Encode s) = .ok s := by
  induction s with
  | nil =>
    intro fuel _
    show utf8DecodeFuel fuel [] = .ok []
    cases fuel <;> rfl
  | cons c rest ih =>
    intro fuel hfuel
    cases fuel with
    | zero => simp at hfuel
    | succ f =>
      unfold utf8Encode
      rw [List.flatMap_cons]
      rw [utf8DecodeFuel_encodeChar]
      rw [show rest.flatMap utf8EncodeChar = utf8Encode rest from rfl]
      rw [ih f (by simp at hfuel; omega)]

theorem utf8Encode_length_ge (s : PyStr) : s.length ≤ (utf8Encode s).length := by
  induction s with
  | nil => simp [utf8Encode]
  | cons c rest ih =>
    unfold utf8Encode at *
    rw [List.flatMap_cons, List.length_append, List.length_cons]
    have hc : 1 ≤ (utf8EncodeChar c).length := by
      unfold utf8EncodeChar
      dsimp only
      split_ifs <;> simp
    omega

theorem utf8Decode_encode (s : PyStr) : utf8Decode (utf8Encode s) = .ok s :=
  utf8DecodeFuel_encode s (utf8Encode s).length (utf8Encode_length_ge s)

/-! ## CompoundId (`datamodel/__init__.py`) -/

/-- `CompoundId.encode`: `idString.replace('"', '\\"')` — a
single-character pattern, so each `"` becomes `\"`. -/
def cidEncode (s : PyStr) : PyStr :=
  s.flatMap (fun c => if c = '"' then ['\\', '"'] else [c])

/-- `CompoundId.decode`: `encodedString.replace('\\"', '"')` —
leftmost non-overlapping replacement of the two-character pattern. -/
def cidDecode : PyStr → PyStr
  | [] => []
  | '\\' :: '"' :: rest => '"' :: cidDecode rest
  | c :: rest => c :: cidDecode rest

/-- `CompoundId.join`: format every split as `"{split}",` and strip the
final comma, inside `[...]` — i.e. quote each split and intercalate
commas. -/
def cidJoin (splits : List PyStr) : PyStr :=
  '[' :: (List.intercalate (",".data) (splits.map (fun s => '"' :: (s ++ ['"'])))) ++ [']']

/-- `CompoundId.obfuscate`:
`base64.urlsafe_b64encode(idStr.encode('utf-8')).replace(b'=', b'')`. -/
def obfuscate (idStr : PyStr) : PyStr :=
  (b64EncodeBytes (utf8Encode idStr)).filter (fun c => c ≠ '=')

/-- `CompoundId.deobfuscate`: re-pad with `'A=='[(len(data) - 1) % 4:]`,
base64-decode (a `binascii.Error` propagates to the caller), then
decode UTF-8 — a `UnicodeDecodeError` is converted to
`ObjectWithIdNotFoundException` inside this method. -/
def deobfuscate (data : PyStr) : Except ApiError PyStr :=
  match a2bBase64 (data ++ padSuffix data.length) with
  | .error _ => .error .binasciiError
  | .ok decoded_data =>
    match utf8Decode decoded_data with
    | .ok s => .ok s
    | .error _ => .error .objectWithIdNotFound

theorem deobfuscate_obfuscate (s : PyStr) : deobfuscate (obfuscate s) = .ok s := by
  unfold deobfuscate obfuscate a2bBase64
  rw [padSuffix_stripped (utf8Encode s) (utf8Encode_lt256 s)]
  rw [a2bLoop_encode (utf8Encode s) (utf8Encode_lt256 s) []]
  simp only [List.nil_append]
  rw [utf8Decode_encode]

/-! ## JSON parsing (model of Python `json.loads`, used by
`CompoundId.split`)

`CompoundId.split` is `json.loads(jsonString)`.  The model below
follows Python's decoder: optional whitespace around a single value;
values are objects, arrays, strings, numbers, `true`/`false`/`null`
and the Python extensions `NaN`/`Infinity`/`-Infinity`; strings are
scanned in strict mode (unescaped control characters below `0x20` are
rejected, the escapes are `\" \\ \/ \b \f \n \r \t \uXXXX`, and
surrogate `\uXXXX` pairs are combined).  Two modelling notes: a lone
surrogate escape is kept by Python as a lone-surrogate `str` element,
which `List Char` cannot represent, so the model yields U+FFFD (such
inputs still parse successfully, which is all any claim depends on);
and the recursion is driven by a fuel argument large enough for any
input nesting (each nesting level consumes input). -/

def jsonWs (c : Char) : Bool := c = ' ' ∨ c = '\t' ∨ c = '\n' ∨ c = '\r'

def skipWs (s : PyStr) : PyStr := s.dropWhile jsonWs

def hexVal? (c : Char) : Option Nat :=
  if 48 ≤ c.toNat ∧ c.toNat ≤ 57 then some (c.toNat - 48)
  else if 97 ≤ c.toNat ∧ c.toNat ≤ 102 then some (c.toNat - 87)
  else if 65 ≤ c.toNat ∧ c.toNat ≤ 70 then some (c.toNat - 55)
  else none

def parseHex4 : PyStr → Option (Nat × PyStr)
  | c1 :: c2 :: c3 :: c4 :: rest =>
    match hexVal? c1, hexVal? c2, hexVal? c3, hexVal? c4 with
    | some h1, some h2, some h3, some h4 =>
      some (h1 * 4096 + h2 * 256 + h3 * 16 + h4, rest)
    | _, _, _, _ => none
  | _ => none

def escChar? (e : Char) : Option Char :=
  if e = '"' then some '"'
  else if e = '\\' then some '\\'
  else if e = '/' then some '/'
  else if e = 'b' then some (Char.ofNat 8)
  else if e = 'f' then some (Char.ofNat 12)
  else if e = 'n' then some (Char.ofNat 10)
  else if e = 'r' then some (Char.ofNat 13)
  else if e = 't' then some (Char.ofNat 9)
  else none

/-- The string scanner (`py_scanstring`, strict), after the opening
quote has been consumed; returns the decoded content and the input
after the closing quote. -/
def scanStringFuel : Nat → PyStr → Except Unit (PyStr × PyStr)
  | _, [] => .error ()
  | 0, _ :: _ => .error ()
  | fuel + 1, c :: rest =>
    if c = '"' then .ok ([], rest)
    else if c = '\\' then
      match rest with
      | [] => .error ()
      | e :: rest2 =>
        if e = 'u' then
          match parseHex4 rest2 with
          | none => .error ()
          | some (u, rest3) =>
            if 55296 ≤ u ∧ u ≤ 56319 then
              match rest3 with
              | '\\' :: 'u' :: rest4 =>
                match parseHex4 rest4 with
                | some (u2, rest5) =>
                  if 56320 ≤ u2 ∧ u2 ≤ 57343 then
                    (scanStringFuel fuel rest5).map
                      (fun p => (Char.ofNat (65536 + (u - 55296) * 1024 + (u2 - 56320)) :: p.1, p.2))
                  else
                    (scanStringFuel fuel rest3).map (fun p => (Char.ofNat 65533 :: p.1, p.2))
                | none =>
                  (scanStringFuel fuel rest3).map (fun p => (Char.ofNat 65533 :: p.1, p.2))
              | _ =>
                (scanStringFuel fuel rest3).map (fun p => (Char.ofNat 65533 :: p.1, p.2))
            else if 56320 ≤ u ∧ u ≤ 57343 then
              (scanStringFuel fuel rest3).map (fun p => (Char.ofNat 65533 :: p.1, p.2))
            else
              (scanStringFuel fuel rest3).map (fun p => (Char.ofNat u :: p.1, p.2))
        else
          match escChar? e with
          | some ch => (scanStringFuel fuel rest2).map (fun p => (ch :: p.1, p.2))
          | none => .error ()
    else if c.toNat < 32 then .error ()
    else (scanStringFuel fuel rest).map (fun p => (c :: p.1, p.2))

def isDigitChar (c : Char) : Bool := 48 ≤ c.toNat ∧ c.toNat ≤ 57

def matchFrac (s : PyStr) : PyStr × PyStr :=
  match s with
  | '.' :: r =>
    let ds := r.takeWhile isDigitChar
    if ds = [] then ([], s) else ('.' :: ds, r.dropWhile isDigitChar)
  | _ => ([], s)

def matchExp (s : PyStr) : PyStr × PyStr :=
  match s with
  | e :: r =>
    if e = 'e' ∨ e = 'E' then
      let sg_r2 : PyStr × PyStr :=
        match r with
        | '+' :: rr => (['+'], rr)
        | '-' :: rr => (['-'], rr)
        | _ => ([], r)
      let ds := sg_r2.2.takeWhile isDigitChar
      if ds = [] then ([], s)
      else (e :: (sg_r2.1 ++ ds), sg_r2.2.dropWhile isDigitChar)
    else ([], s)
  | [] => ([], s)

/-- The JSON number regex `-?(0|[1-9]\d*)(\.\d+)?([eE][+-]?\d+)?`;
returns the lexeme and the rest. -/
def matchNumber (s : PyStr) : Option (PyStr × PyStr) :=
  let sign_s1 : PyStr × PyStr :=
    match s with
    | '-' :: r => (['-'], r)
    | _ => ([], s)
  match sign_s1.2 with
  | [] => none
  | c :: r =>
    if c = '0' then
      let fr := matchFrac r
      let ex := matchExp fr.2
      some (sign_s1.1 ++ '0' :: (fr.1 ++ ex.1), ex.2)
    else if isDigitChar c then
      let ds := r.takeWhile isDigitChar
      let r1 := r.dropWhile isDigitChar
      let fr := matchFrac r1
      let ex := matchExp fr.2
      some (sign_s1.1 ++ c :: (ds ++ (fr.1 ++ ex.1)), ex.2)
    else none

mutual

def parseValueFuel : Nat → PyStr → Except Unit (PyJson × PyStr)
  | 0, _ => .error ()
  | fuel + 1, s =>
    match s with
    | [] => .error ()
    | c :: rest =>
      if c = '"' then
        match scanStringFuel rest.length rest with
        | .ok (str, rest2) => .ok (.str str, rest2)
        | .error e => .error e
      else if c = '[' then
        match skipWs rest with
        | [] => .error ()
        | d :: rest2 =>
          if d = ']' then .ok (.arr [], rest2)
          else
            match parseArrayItems fuel (d :: rest2) with
            | .ok (vs, rest3) => .ok (.arr vs, rest3)
            | .error e => .error e
      else if c = '{' then
        match skipWs rest with
        | [] => .error ()
        | d :: rest2 =>
          if d = '}' then .ok (.obj [], rest2)
          else
            match parseObjItems fuel (d :: rest2) with
            | .ok (kvs, rest3) => .ok (.obj kvs, rest3)
            | .error e => .error e
      else if c = 't' then
        if rest.take 3 = "rue".data then .ok (.bool true, rest.drop 3) else .error ()
      else if c = 'f' then
        if rest.take 4 = "alse".data then .ok (.bool false, rest.drop 4) else .error ()
      else if c = 'n' then
        if rest.take 3 = "ull".data then .ok (.null, rest.drop 3) else .error ()
      else if c = 'N' then
        if rest.take 2 = "aN".data then .ok (.num ("NaN".data), rest.drop 2) else .error ()
      else if c = 'I' then
        if rest.take 7 = "nfinity".data then .ok (.num ("Infinity".data), rest.drop 7)
        else .error ()
      else if c = '-' ∧ rest.take 8 = "Infinity".data then
        .ok (.num ("-Infinity".data), rest.drop 8)
      else
        match matchNumber (c :: rest) with
        | some (lexeme, rest2) => .ok (.num lexeme, rest2)
        | none => .error ()

def parseArrayItems : Nat → PyStr → Except Unit (List PyJson × PyStr)
  | 0, _ => .error ()
  | fuel + 1, s =>
    match parseValueFuel fuel s with
    | .error e => .error e
    | .ok (v, rest) =>
      match skipWs rest with
      | [] => .error ()
      | d :: rest2 =>
        if d = ']' then .ok ([v], rest2)
        else if d = ',' then
          match parseArrayItems fuel (skipWs rest2) with
          | .ok (vs, rest3) => .ok (v :: vs, rest3)
          | .error e => .error e
        else .error ()

def parseObjItems : Nat → PyStr → Except Unit (List (PyStr × PyJson) × PyStr)
  | 0, _ => .error ()
  | fuel + 1, s =>
    match s with
    | [] => .error ()
    | c :: rest =>
      if c = '"' then
        match scanStringFuel rest.length rest with
        | .error e => .error e
        | .ok (key, rest2) =>
          match skipWs rest2 with
          | [] => .error ()
          | d :: rest3 =>
            if d = ':' then
              match parseValueFuel fuel (skipWs rest3) with
              | .error e => .error e
              | .ok (v, rest4) =>
                match skipWs rest4 with
                | [] => .error ()
                | e2 :: rest5 =>
                  if e2 = '}' then .ok ([(key, v)], rest5)
                  else if e2 = ',' then
                    match parseObjItems fuel (skipWs rest5) with
                    | .ok (kvs, rest6) => .ok ((key, v) :: kvs, rest6)
                    | .error e => .error e
                  else .error ()
            else .error ()
      else .error ()

end

/-- `json.loads`: optional surrounding whitespace, one value, nothing
after it ("Extra data" otherwise).  The fuel `2 * length + 2` covers
any nesting the input can express. -/
def jsonLoads (s : PyStr) : Except Unit PyJson :=
  let s1 := skipWs s
  match parseValueFuel (2 * s1.length + 2) s1 with
  | .error _ => .error ()
  | .ok (v, rest) => if skipWs rest = [] then .ok v else .error ()

/-! ## CompoundId construction, `__str__`, and `parse` -/

def diffFieldName : PyStr := "differentiator".data

/-- The class-level data of a `CompoundId` subclass: its `fields` list
and its `differentiator` (e.g. `DatasetCompoundId` has
`fields = ['dataset']`, no differentiator; `PatientCompoundId` has
`fields = ['dataset', 'differentiator', 'patient']`,
`differentiator = 'pat'`). -/
structure CompoundIdClass where
  fields : List PyStr
  differentiator : Option PyStr

def datasetCompoundId : CompoundIdClass := ⟨[ "dataset".data ], none⟩

def patientCompoundId : CompoundIdClass :=
  ⟨[ "dataset".data, diffFieldName, "patient".data ], some ("pat".data)⟩

/-- `list.index(x)`: the first index of `x`, `none` when absent (Python
raises `ValueError`). -/
def listIndexOf (x : PyStr) : List PyStr → Option Nat
  | [] => none
  | y :: ys => if y = x then some 0 else (listIndexOf x ys).map (fun n => n + 1)

/-- `CompoundId.__init__` with `parentCompoundId = None`: when the class
has a differentiator and `'differentiator'` occurs in `fields`, the
differentiator value is spliced into the local ids at its field index
(Python slicing clamps, hence `take`/`drop`); every local id is stored
encoded (`self.encode`); a local-id count different from the field count
raises `ValueError`.  Returns the stored per-field values. -/
def compoundIdNew (cls : CompoundIdClass) (localIds : List PyStr) :
    Except ApiError (List PyStr) :=
  let ids :=
    match cls.differentiator with
    | some d =>
      match listIndexOf diffFieldName cls.fields with
      | some di => localIds.take di ++ d :: localIds.drop di
      | none => localIds
    | none => localIds
  if ids.length = cls.fields.length then .ok (ids.map cidEncode)
  else .error .pyValueError

/-- `CompoundId.__str__`: join the stored (already encoded) field values
and obfuscate. -/
def compoundIdStr (stored : List PyStr) : PyStr :=
  obfuscate (cidJoin stored)

/-- The iteration in `[cls.decode(split) for split in encodedSplits]`
over the value `json.loads` produced: an array yields its elements, but
a non-string element has no `.replace` (`AttributeError`); a string
yields its characters as one-character strings; a dict yields its keys;
a number, boolean or `None` is not iterable (`TypeError`).  Neither
exception is caught by `parse`. -/
def pyIterStrs : PyJson → Except ApiError (List PyStr)
  | .arr elems =>
    elems.mapM (fun v =>
      match v with
      | .str str => .ok str
      | _ => .error .pyAttributeError)
  | .str str => .ok (str.map (fun c => [c]))
  | .obj kvs => .ok (kvs.map (fun kv => kv.1))
  | _ => .error .pyTypeError

/-- `CompoundId.parse`: deobfuscate (a `binascii.Error` is converted to
`ObjectWithIdNotFoundException`, and the `ObjectWithIdNotFoundException`
deobfuscate itself raises on bad UTF-8 propagates); `json.loads` (a
`JSONDecodeError` is a `ValueError`, caught and converted to
`ObjectWithIdNotFoundException`); decode each split; if the class has a
differentiator, `fields.index('differentiator')` (an uncaught
`ValueError` if absent — no subclass in the source has this), delete
that position of the splits if it exists, else
`ObjectWithIdNotFoundException`; a split count different from the
(differentiator-adjusted) field count is
`ObjectWithIdNotFoundException`; finally `cls(None, *splits)`. -/
def compoundIdParse (cls : CompoundIdClass) (s : PyStr) :
    Except ApiError (List PyStr) :=
  match deobfuscate s with
  | .error .binasciiError => .error .objectWithIdNotFound
  | .error e => .error e
  | .ok deob =>
    match jsonLoads deob with
    | .error _ => .error .objectWithIdNotFound
    | .ok v =>
      match pyIterStrs v with
      | .error e => .error e
      | .ok encodedSplits =>
        let splits := encodedSplits.map cidDecode
        match cls.differentiator with
        | none =>
          if splits.length = cls.fields.length then compoundIdNew cls splits
          else .error .objectWithIdNotFound
        | some _ =>
          match listIndexOf diffFieldName cls.fields with
          | none => .error .pyValueError
          | some di =>
            if di < splits.length then
              if (splits.eraseIdx di).length = cls.fields.length - 1 then
                compoundIdNew cls (splits.eraseIdx di)
              else .error .objectWithIdNotFound
            else .error .objectWithIdNotFound

/-! ### Lemmas about the CompoundId string helpers -/

theorem except_map_ok {ε α β : Type} (f : α → β) (a : α) :
    (Except.ok a : Except ε α).map f = .ok (f a) := rfl

theorem cidDecode_cons_ne (c : Char) (v : PyStr) (hc : c ≠ '\\') :
    cidDecode (c :: v) = c :: cidDecode v := by
  conv_lhs => unfold cidDecode
  split
  · rename_i heq
    exact absurd heq (List.cons_ne_nil c v)
  · rename_i rest heq
    injection heq with h1 h2
    exact absurd h1 hc
  · rename_i c2 rest hne heq
    injection heq with h1 h2
    subst h1
    subst h2
    rfl

theorem cidDecode_safe (v : PyStr) (h : ∀ c ∈ v, c ≠ '\\') : cidDecode v = v := by
  induction v with
  | nil => rfl
  | cons c v2 ih =>
    rw [cidDecode_cons_ne c v2 (h c (List.mem_cons_self c v2))]
    rw [ih (fun c2 hc2 => h c2 (List.mem_cons_of_mem c hc2))]

theorem listIndexOf_mem (x : PyStr) (l : List PyStr) (h : x ∈ l) :
    ∃ i, listIndexOf x l = some i := by
  induction l with
  | nil => exact absurd h (List.not_mem_nil x)
  | cons y ys ih =>
    unfold listIndexOf
    by_cases hy : y = x
    · exact ⟨0, by rw [if_pos hy]⟩
    · rcases ih (List.mem_cons.mp h |>.resolve_left (fun hx => hy hx.symm)) with ⟨i, hi⟩
      exact ⟨i + 1, by rw [if_neg hy, hi]; rfl⟩

theorem listIndexOf_lt_length (x : PyStr) (l : List PyStr) (i : Nat)
    (h : listIndexOf x l = some i) : i < l.length := by
  induction l generalizing i with
  | nil => exact absurd h (by unfold listIndexOf; exact Option.noConfusion)
  | cons y ys ih =>
    unfold listIndexOf at h
    by_cases hy : y = x
    · rw [if_pos hy] at h
      cases h
      exact Nat.succ_pos _
    · rw [if_neg hy] at h
      match hrec : listIndexOf x ys with
      | none => rw [hrec] at h; exact Option.noConfusion h
      | some j =>
        rw [hrec] at h
        have hj := ih j hrec
        have : j + 1 = i := by
          have := h
          simp only [Option.map_some] at this
          exact Option.some.injEq .. ▸ this
        rw [← this]
        exact Nat.succ_lt_succ hj

theorem eraseIdx_append_cons (xs zs : List PyStr) (y : PyStr) :
    (xs ++ y :: zs).eraseIdx xs.length = xs ++ zs := by
  induction xs with
  | nil => rfl
  | cons x rest ih =>
    simp only [List.cons_append, List.length_cons, List.eraseIdx_cons_succ]
    rw [ih]

theorem skipWs_not_ws (c : Char) (l : PyStr) (h : jsonWs c = false) :
    skipWs (c :: l) = c :: l := by
  unfold skipWs
  exact List.dropWhile_cons_of_neg (by rw [h]; exact Bool.false_ne_true)

/-- A character is safe for identifier round-tripping when it is not a
backslash and not a control character below `0x20`. -/
def cidSafeChar (c : Char) : Bool := c ≠ '\\' ∧ 32 ≤ c.toNat

theorem cidEncode_quote (v2 : PyStr) :
    cidEncode ('"' :: v2) = '\\' :: '"' :: cidEncode v2 := by
  simp [cidEncode]

theorem cidEncode_other (c : Char) (v2 : PyStr) (hq : c ≠ '"') :
    cidEncode (c :: v2) = c :: cidEncode v2 := by
  simp [cidEncode, hq]

theorem scanStringFuel_cidEncode (v : PyStr) :
    (∀ c ∈ v, cidSafeChar c = true) → ∀ (rest : PyStr) (fuel : Nat),
      (cidEncode v).length < fuel →
      scanStringFuel fuel (cidEncode v ++ '"' :: rest) = .ok (v, rest) := by
  induction v with
  | nil =>
    intro _ rest fuel hf
    cases fuel with
    | zero => exact absurd hf (Nat.not_lt_zero _)
    | succ f =>
      show scanStringFuel (f + 1) ('"' :: rest) = .ok ([], rest)
      simp only [scanStringFuel]
      rw [if_pos trivial]
  | cons c v2 ih =>
    intro hsafe rest fuel hf
    have hc : c ≠ '\\' ∧ 32 ≤ c.toNat := by
      have := hsafe c (List.mem_cons_self c v2)
      simpa [cidSafeChar] using this
    have ih2 := ih (fun x hx => hsafe x (List.mem_cons_of_mem c hx)) rest
    by_cases hq : c = '"'
    · subst hq
      rw [cidEncode_quote] at hf ⊢
      cases fuel with
      | zero => exact absurd hf (Nat.not_lt_zero _)
      | succ f =>
        simp only [List.cons_append]
        simp only [scanStringFuel]
        rw [if_neg (by decide : ¬ ('\\' : Char) = '"')]
        rw [if_pos trivial]
        try dsimp only
        rw [if_neg (by decide : ¬ ('"' : Char) = 'u')]
        rw [show escChar? '"' = some '"' from rfl]
        try dsimp only
        rw [ih2 f (by simp only [List.length_cons] at hf; omega)]
        rfl
    · rw [cidEncode_other c v2 hq] at hf ⊢
      cases fuel with
      | zero => exact absurd hf (Nat.not_lt_zero _)
      | succ f =>
        simp only [List.cons_append]
        simp only [scanStringFuel]
        rw [if_neg hq]
        rw [if_neg hc.1]
        rw [if_neg (by omega : ¬ c.toNat < 32)]
        rw [ih2 f (by simp only [List.length_cons] at hf; omega)]
        rfl

theorem intercalate_one (s x : List Char) : List.intercalate s [x] = x := by
  simp [List.intercalate]

theorem intercalate_two (s a b : List Char) (l : List (List Char)) :
    List.intercalate s (a :: b :: l) = a ++ (s ++ List.intercalate s (b :: l)) := by
  simp [List.intercalate, List.intersperse]

theorem parseArrayItems_quoted (vs : List PyStr) :
    vs ≠ [] → (∀ v ∈ vs, ∀ c ∈ v, cidSafeChar c = true) →
    ∀ (tail : PyStr) (fuel : Nat), 2 * vs.length ≤ fuel →
    parseArrayItems fuel
      (List.intercalate [',']
        (vs.map (fun v => '"' :: (cidEncode v ++ ['"']))) ++ (']' :: tail)) =
      .ok (vs.map PyJson.str, tail) := by
  induction vs with
  | nil => intro hne; exact absurd rfl hne
  | cons v vs2 ih =>
    intro _ hsafe tail fuel hfuel
    have hsafev : ∀ c ∈ v, cidSafeChar c = true :=
      fun c hc => hsafe v (List.mem_cons_self v vs2) c hc
    match fuel, hfuel with
    | g + 1 + 1, hfuel =>
      cases vs2 with
      | nil =>
        rw [List.map_cons, List.map_nil, intercalate_one]
        simp only [List.cons_append, List.append_assoc, List.singleton_append,
          List.nil_append]
        simp only [parseArrayItems]
        simp only [parseValueFuel]
        rw [if_pos trivial]
        have hscan := scanStringFuel_cidEncode v hsafev (']' :: tail)
          (cidEncode v ++ '"' :: ']' :: tail).length
          (by simp only [List.length_append, List.length_cons]; omega)
        rw [hscan]
        try dsimp only
        rw [skipWs_not_ws ']' tail (by decide)]
        try dsimp only
        rw [if_pos (rfl : (']' : Char) = ']')]
        rfl
      | cons w ws =>
        rw [List.map_cons, List.map_cons, intercalate_two]
        simp only [List.cons_append, List.append_assoc, List.singleton_append,
          List.nil_append]
        simp only [parseArrayItems]
        simp only [parseValueFuel]
        rw [if_pos trivial]
        have hscan := scanStringFuel_cidEncode v hsafev
          (',' :: (List.intercalate [',']
            (('"' :: (cidEncode w ++ ['"'])) ::
              ws.map (fun v => '"' :: (cidEncode v ++ ['"']))) ++ ']' :: tail))
          (cidEncode v ++ '"' :: ',' :: (List.intercalate [',']
            (('"' :: (cidEncode w ++ ['"'])) ::
              ws.map (fun v => '"' :: (cidEncode v ++ ['"']))) ++ ']' :: tail)).length
          (by simp only [List.length_append, List.length_cons]; omega)
        rw [hscan]
        try dsimp only
        rw [skipWs_not_ws ',' _ (by decide)]
        try dsimp only
        rw [if_neg (by decide : ¬ (',' : Char) = ']')]
        rw [if_pos (rfl : (',' : Char) = ',')]
        have hih := ih (List.cons_ne_nil w ws)
          (fun x hx => hsafe x (List.mem_cons_of_mem v hx)) tail (g + 1)
          (by simp only [List.length_cons] at hfuel ⊢; omega)
        rw [List.map_cons] at hih
        simp only [parseArrayItems] at hih
        have hI : skipWs (List.intercalate [',']
            (('"' :: (cidEncode w ++ ['"'])) ::
              ws.map (fun v => '"' :: (cidEncode v ++ ['"']))) ++ ']' :: tail) =
            List.intercalate [',']
            (('"' :: (cidEncode w ++ ['"'])) ::
              ws.map (fun v => '"' :: (cidEncode v ++ ['"']))) ++ ']' :: tail := by
          cases ws with
          | nil =>
            rw [List.map_nil, intercalate_one]
            simp only [List.cons_append, List.append_assoc, List.singleton_append]
            exact skipWs_not_ws '"' _ (by decide)
          | cons u us =>
            rw [List.map_cons, intercalate_two]
            simp only [List.cons_append, List.append_assoc, List.singleton_append]
            exact skipWs_not_ws '"' _ (by decide)
        rw [hI]
        rw [hih]
        rfl

theorem intercalate_quoted_head (vs : List PyStr) (hne : vs ≠ []) :
    ∃ t, List.intercalate [',']
      (vs.map (fun v => '"' :: (cidEncode v ++ ['"']))) = '"' :: t := by
  cases vs with
  | nil => exact absurd rfl hne
  | cons v vs2 =>
    cases vs2 with
    | nil =>
      rw [List.map_cons, List.map_nil, intercalate_one]
      exact ⟨_, rfl⟩
    | cons w ws =>
      rw [List.map_cons, List.map_cons, intercalate_two]
      simp only [List.cons_append]
      exact ⟨_, rfl⟩

theorem intercalate_quoted_length (vs : List PyStr) :
    vs.length ≤ (List.intercalate [',']
      (vs.map (fun v => '"' :: (cidEncode v ++ ['"'])))).length + 1 := by
  induction vs with
  | nil => simp [List.intercalate]
  | cons v vs2 ih =>
    cases vs2 with
    | nil =>
      rw [List.map_cons, List.map_nil, intercalate_one]
      simp only [List.length_cons, List.length_append, List.length_nil]
      omega
    | cons w ws =>
      rw [List.map_cons, List.map_cons, intercalate_two]
      rw [List.map_cons] at ih
      simp only [List.length_cons, List.length_append, List.length_nil] at ih ⊢
      omega

theorem parseValueFuel_cidJoin (vs : List PyStr) (hne : vs ≠ [])
    (hsafe : ∀ v ∈ vs, ∀ c ∈ v, cidSafeChar c = true) :
    ∀ (fuel : Nat), 2 * vs.length + 1 ≤ fuel →
    parseValueFuel fuel
      ('[' :: (List.intercalate [',']
        (vs.map (fun v => '"' :: (cidEncode v ++ ['"']))) ++ [']'])) =
      .ok (.arr (vs.map PyJson.str), []) := by
  intro fuel hf
  match fuel, hf with
  | g + 1, hf =>
    obtain ⟨t, ht⟩ := intercalate_quoted_head vs hne
    have harr := parseArrayItems_quoted vs hne hsafe [] g (by omega)
    rw [ht] at harr ⊢
    simp only [List.cons_append, List.nil_append] at harr ⊢
    simp only [parseValueFuel]
    rw [if_neg (by decide : ¬ ('[' : Char) = '"')]
    rw [if_pos trivial]
    rw [skipWs_not_ws '"' _ (by decide)]
    try dsimp only
    rw [if_neg (by decide : ¬ ('"' : Char) = ']')]
    rw [harr]

theorem jsonLoads_cidJoin (vs : List PyStr) (hne : vs ≠ [])
    (hsafe : ∀ v ∈ vs, ∀ c ∈ v, cidSafeChar c = true) :
    jsonLoads (cidJoin (vs.map cidEncode)) = .ok (.arr (vs.map PyJson.str)) := by
  have hjoin : cidJoin (vs.map cidEncode) =
      '[' :: (List.intercalate [',']
        (vs.map (fun v => '"' :: (cidEncode v ++ ['"']))) ++ [']']) := by
    unfold cidJoin
    rw [show (",".data : List Char) = [','] from rfl]
    rw [List.map_map]
    simp only [List.cons_append]
    rfl
  rw [hjoin]
  unfold jsonLoads
  try dsimp only
  rw [skipWs_not_ws '[' _ (by decide)]
  have hlen := intercalate_quoted_length vs
  rw [parseValueFuel_cidJoin vs hne hsafe _
    (by simp only [List.length_cons, List.length_append]; omega)]
  try dsimp only
  rw [if_pos (show skipWs [] = [] from rfl)]

theorem pyIterStrs_arr_strs (l : List PyStr) :
    pyIterStrs (.arr (l.map PyJson.str)) = .ok l := by
  induction l with
  | nil => rfl
  | cons s rest ih =>
    simp only [pyIterStrs] at ih ⊢
    rw [List.map_cons, List.mapM_cons, ih]
    rfl

theorem deobfuscate_error_cases (s : PyStr) (e : ApiError)
    (h : deobfuscate s = .error e) :
    e = .binasciiError ∨ e = .objectWithIdNotFound := by
  unfold deobfuscate at h
  cases ha : a2bBase64 (s ++ padSuffix s.length) with
  | error u =>
    rw [ha] at h
    injection h with h2
    exact Or.inl h2.symm
  | ok bytes =>
    rw [ha] at h
    try dsimp only at h
    cases hu : utf8Decode bytes with
    | ok t =>
      rw [hu] at h
      exact Except.noConfusion h
    | error u =>
      rw [hu] at h
      injection h with h2
      exact Or.inr h2.symm

theorem map_cidDecode_safe (l : List PyStr)
    (h : ∀ v ∈ l, ∀ c ∈ v, cidSafeChar c = true) :
    l.map cidDecode = l := by
  have h2 : ∀ v ∈ l, cidDecode v = id v := by
    intro v hv
    refine cidDecode_safe v (fun c hc => ?_)
    have := h v hv c hc
    simp only [cidSafeChar, decide_eq_true_eq, Bool.and_eq_true] at this
    exact this.1
  rw [List.map_congr_left h2, List.map_id]

theorem eraseIdx_append_cons_of_len (xs zs : List PyStr) (y : PyStr) (n : Nat)
    (h : xs.length = n) : (xs ++ y :: zs).eraseIdx n = xs ++ zs := by
  subst h
  exact eraseIdx_append_cons xs zs y

/-- C2: identifier round-trip.  For a CompoundId class with a nonempty
field list (whose differentiator, when present, occurs in `fields` and
is itself a safe string, as for every subclass in the source), and for
local-id values of the length the class requires (i.e. the constructor
succeeds) whose characters are neither backslashes nor control
characters below `0x20`, parsing the obfuscated string form recovers
exactly the stored field values — for every value length, hence for
every base64 padding boundary (the witness and the length-universal
statement cover all four residue classes of encoded length modulo 4).
The safety restriction is necessary: see the counterexample theorem,
where a single backslash value makes `parse` raise
`ObjectWithIdNotFoundException`, refuting the claim as stated for
arbitrary strings. -/
theorem compoundId_parse_str_roundtrip (cls : CompoundIdClass)
    (vs stored : List PyStr)
    (hne : cls.fields ≠ [])
    (hdiffmem : ∀ d, cls.differentiator = some d → diffFieldName ∈ cls.fields)
    (hdiffsafe : ∀ d, cls.differentiator = some d → ∀ c ∈ d, cidSafeChar c = true)
    (hsafe : ∀ v ∈ vs, ∀ c ∈ v, cidSafeChar c = true)
    (hok : compoundIdNew cls vs = .ok stored) :
    compoundIdParse cls (compoundIdStr stored) = .ok stored := by
  simp only [compoundIdNew] at hok
  cases hd : cls.differentiator with
  | none =>
    rw [hd] at hok
    try dsimp only at hok
    by_cases hL : vs.length = cls.fields.length
    · rw [if_pos hL] at hok
      injection hok with hstored
      subst hstored
      have hvne : vs ≠ [] := by
        intro hnil
        apply hne
        subst hnil
        exact List.eq_nil_of_length_eq_zero hL.symm
      unfold compoundIdStr compoundIdParse
      rw [deobfuscate_obfuscate]
      try dsimp only
      rw [jsonLoads_cidJoin vs hvne hsafe]
      try dsimp only
      rw [pyIterStrs_arr_strs]
      try dsimp only
      rw [map_cidDecode_safe vs hsafe]
      rw [hd]
      try dsimp only
      rw [if_pos hL]
      simp only [compoundIdNew]
      rw [hd]
      try dsimp only
      rw [if_pos hL]
    · rw [if_neg hL] at hok
      exact Except.noConfusion hok
  | some d =>
    rw [hd] at hok
    try dsimp only at hok
    obtain ⟨di, hdi⟩ := listIndexOf_mem diffFieldName cls.fields (hdiffmem d hd)
    rw [hdi] at hok
    try dsimp only at hok
    by_cases hL : (vs.take di ++ d :: vs.drop di).length = cls.fields.length
    · rw [if_pos hL] at hok
      injection hok with hstored
      subst hstored
      have hdlt := listIndexOf_lt_length diffFieldName cls.fields di hdi
      have hlen0 : (vs.take di ++ d :: vs.drop di).length =
          min di vs.length + 1 + (vs.length - di) := by
        simp only [List.length_append, List.length_cons, List.length_take,
          List.length_drop]
        omega
      have hdle : di ≤ vs.length := by omega
      have hidslen : (vs.take di ++ d :: vs.drop di).length = vs.length + 1 := by
        omega
      have hidsne : (vs.take di ++ d :: vs.drop di) ≠ [] := by
        intro hnil
        rw [hnil] at hidslen
        simp only [List.length_nil] at hidslen
        omega
      have hidssafe : ∀ v ∈ (vs.take di ++ d :: vs.drop di),
          ∀ c ∈ v, cidSafeChar c = true := by
        intro v hv
        rcases List.mem_append.mp hv with h1 | h2
        · exact hsafe v (List.take_subset di vs h1)
        · rcases List.mem_cons.mp h2 with h3 | h4
          · rw [h3]
            exact hdiffsafe d hd
          · exact hsafe v (List.drop_subset di vs h4)
      unfold compoundIdStr compoundIdParse
      rw [deobfuscate_obfuscate]
      try dsimp only
      rw [jsonLoads_cidJoin _ hidsne hidssafe]
      try dsimp only
      rw [pyIterStrs_arr_strs]
      try dsimp only
      rw [map_cidDecode_safe _ hidssafe]
      rw [hd]
      try dsimp only
      rw [hdi]
      try dsimp only
      rw [if_pos (by omega : di < (vs.take di ++ d :: vs.drop di).length)]
      have htk : (vs.take di).length = di := by
        rw [List.length_take]
        omega
      rw [eraseIdx_append_cons_of_len _ _ _ _ htk, List.take_append_drop]
      rw [if_pos (by omega : vs.length = cls.fields.length - 1)]
      simp only [compoundIdNew]
      rw [hd]
      try dsimp only
      rw [hdi]
      try dsimp only
      rw [if_pos hL]
    · rw [if_neg hL] at hok
      exact Except.noConfusion hok

/-- C2 counterexample: the round trip fails for arbitrary strings.  The
single field value `\` of a `DatasetCompoundId` is accepted by the
constructor, but its joined form `["\"]` is not valid JSON (the
backslash escapes the closing quote), so `parse(str(...))` raises
`ObjectWithIdNotFoundException` instead of recovering the value. -/
theorem compoundId_roundtrip_backslash_counterexample :
    compoundIdNew datasetCompoundId [['\\']] = .ok [['\\']] ∧
    compoundIdParse datasetCompoundId (compoundIdStr [['\\']]) =
      .error .objectWithIdNotFound := by
  constructor
  · rfl
  · rfl

theorem compoundId_parse_str_roundtrip_witness :
    compoundIdParse patientCompoundId
      (compoundIdStr [ "ds".data, "pat".data, "p1".data ]) =
      .ok [ "ds".data, "pat".data, "p1".data ] :=
  compoundId_parse_str_roundtrip patientCompoundId
    [ "ds".data, "p1".data ] [ "ds".data, "pat".data, "p1".data ]
    (by decide)
    (fun d hd => by decide)
    (fun d hd => by
      injection hd with h2
      rw [← h2]
      decide)
    (by decide)
    (by rfl)

/-- The split-count rejection conditions of `CompoundId.parse`, as a
function of the number of splits: with no differentiator the count must
equal the field count to proceed; with a differentiator, the
differentiator index must fall inside the splits and after deleting it
the count must equal the remaining field count. -/
def splitsRejected (cls : CompoundIdClass) (n : Nat) : Bool :=
  match cls.differentiator with
  | none => n ≠ cls.fields.length
  | some _ =>
    match listIndexOf diffFieldName cls.fields with
    | none => false
    | some di => n ≤ di ∨ n ≠ cls.fields.length

/-- C3: a malformed external identifier is indistinguishable from a
reference to a nonexistent object.  For any CompoundId class whose
differentiator, when present, occurs in `fields` (true of every
subclass in the source), and any input string: if base64 decoding
fails, or the decoded bytes are not valid UTF-8 (both surface as
`deobfuscate` errors), or the deobfuscated text is not valid JSON, or
the split count mismatches the class's field count, or the
differentiator position is absent from the splits, then `parse` returns
exactly `ObjectWithIdNotFoundException` — never a format-error
classification. -/
theorem compoundIdParse_malformed_not_found (cls : CompoundIdClass) (s : PyStr)
    (hwf : ∀ d, cls.differentiator = some d → diffFieldName ∈ cls.fields) :
    (∀ e, deobfuscate s = .error e →
      compoundIdParse cls s = .error .objectWithIdNotFound) ∧
    (∀ t, deobfuscate s = .ok t → jsonLoads t = .error () →
      compoundIdParse cls s = .error .objectWithIdNotFound) ∧
    (∀ t v ss, deobfuscate s = .ok t → jsonLoads t = .ok v →
      pyIterStrs v = .ok ss → splitsRejected cls ss.length = true →
      compoundIdParse cls s = .error .objectWithIdNotFound) := by
  refine ⟨?_, ?_, ?_⟩
  · intro e he
    unfold compoundIdParse
    rcases deobfuscate_error_cases s e he with h1 | h1 <;> subst h1 <;> rw [he] <;> rfl
  · intro t ht hj
    unfold compoundIdParse
    rw [ht]
    try dsimp only
    rw [hj]
  · intro t v ss ht hj hp hrej
    unfold compoundIdParse
    rw [ht]
    try dsimp only
    rw [hj]
    try dsimp only
    rw [hp]
    try dsimp only
    unfold splitsRejected at hrej
    cases hd : cls.differentiator with
    | none =>
      rw [hd] at hrej
      try dsimp only at hrej ⊢
      have hrej2 : ss.length ≠ cls.fields.length := by simpa using hrej
      rw [if_neg (by rw [List.length_map]; exact hrej2)]
    | some d =>
      rw [hd] at hrej
      try dsimp only at hrej ⊢
      obtain ⟨di, hdi⟩ := listIndexOf_mem diffFieldName cls.fields (hwf d hd)
      rw [hdi] at hrej ⊢
      try dsimp only at hrej ⊢
      have hrej2 : ss.length ≤ di ∨ ss.length ≠ cls.fields.length := by
        simpa using hrej
      have hdlt := listIndexOf_lt_length diffFieldName cls.fields di hdi
      by_cases hlt : di < (ss.map cidDecode).length
      · rw [if_pos hlt]
        rw [List.length_map] at hlt
        have hel : ((ss.map cidDecode).eraseIdx di).length = ss.length - 1 := by
          rw [List.length_eraseIdx]
          rw [List.length_map]
          rw [if_pos hlt]
        rw [if_neg (by rw [hel]; omega)]
      · rw [if_neg hlt]

theorem compoundIdParse_malformed_not_found_witness :
    compoundIdParse patientCompoundId (obfuscate ("[\"x\"]").data) =
      .error .objectWithIdNotFound :=
  (compoundIdParse_malformed_not_found patientCompoundId
      (obfuscate ("[\"x\"]").data)
      (fun d hd => by decide)).2.2
    ("[\"x\"]").data (.arr [.str ("x".data)]) [ "x".data ]
    (by rfl) (by rfl) (by rfl) (by decide)
